import Mathlib

/-!
Shallow embedding of the radix-spline learned index (`src/lib.rs`).

Modelling conventions:

* The key type `T = u32` is modelled as `ℕ`.  Every `u32` subtraction
  executed by the program is guarded by a comparison (`key − min` after
  `key > min`, `x − last.x` under `x ≥ last.x`, `max − min` after the
  swap in `Builder::new`), so truncated `ℕ` subtraction agrees with the
  `u32` operation on those paths.
* `usize` is modelled as `ℕ`; the one `usize` subtraction that can
  underflow (`num_points - 1` on an empty index) is modelled with an
  explicit check returning `none` (Rust panics there in debug builds).
* `f32` values are modelled as exact rationals `ℚ`.  The constant
  `f32::EPSILON` becomes `1 / 2^23`.  All concrete runs used below only
  involve f32 operations that are exact (small integers, and divisions
  whose results are representable), so on those inputs the model agrees
  with the floating-point program bit for bit.
* Rust vectors become `List`s; fallible indexing and slicing return
  `Option` (a `none` models a Rust panic).  Slice `fill` operations are
  rendered with an index-conditional map.
-/

/-- `LINEAR_THRESH` from the source: when to use linear instead of binary search. -/
def LINEAR_THRESH : ℕ := 32

/-- `RADIX_BITS` from the source. -/
def RADIX_BITS : ℕ := 10

/-- `PREC = f32::EPSILON`, the tolerance of the orientation test. -/
def PREC : ℚ := 1 / 2 ^ 23

/-- `Coordinate { x: T, y: f32 }` from the source. -/
structure Coordinate where
  x : ℕ
  y : ℚ
deriving DecidableEq

instance : Inhabited Coordinate := ⟨⟨0, 0⟩⟩

/-- `Orientation` from the source (renamed: Mathlib already has `Orientation`). -/
inductive Orient where
  | Linear
  | Clockwise
  | Counterclockwise
deriving DecidableEq

/-- `orient` from the source. -/
def orient (dx1 dy1 dx2 dy2 : ℚ) : Orient :=
  let e := (dy1 * dx2) - (dy2 * dx1)
  if e > PREC then Orient.Clockwise
  else if e < -PREC then Orient.Counterclockwise
  else Orient.Linear

/-- Number of binary digits of `n`, computed with explicit fuel so that it
reduces in the kernel; the fuel `33` is enough for every `u32` value. -/
def bitLenAux : ℕ → ℕ → ℕ
  | 0, _ => 0
  | fuel + 1, n => if n = 0 then 0 else bitLenAux fuel (n / 2) + 1

/-- Bit length of a natural number (`0` for `0`). -/
def bitLen (n : ℕ) : ℕ := bitLenAux 33 n

/-- `u32::leading_zeros` (the key type has 32 bits). -/
def leading_zeros (d : ℕ) : ℕ := 32 - bitLen d

/-- `shift_bits` from the source.  Note the source uses
`size_of::<T>() as T`, which is `4` (bytes, not bits); `ℕ` subtraction is
saturating exactly like `u32::saturating_sub`. -/
def shiftBitsOf (diff radix_bits : ℕ) : ℕ :=
  4 - radix_bits - leading_zeros diff

/-- Modelled from the spec: the intended shift amount
`max(0, W − R − clz(max − min))` with `W = 32` the key width in bits
(`ℕ` subtraction saturates, providing the `max(0, ·)`). -/
def specShiftBits (diff : ℕ) : ℕ :=
  32 - RADIX_BITS - leading_zeros diff

/-- `Builder` from the source.  The field `prev_pfx` is `prev_prefix` in
the source. -/
structure Builder where
  min : ℕ
  max : ℕ
  shift_bits : ℕ
  max_error : ℚ
  prev_pfx : ℕ
  radix_table : List ℕ
  spline_points : List Coordinate
  num_points : ℕ
  prev_y : ℚ
  prev_x : ℕ
  distinct : ℕ
  lower_limit : Coordinate
  upper_limit : Coordinate
  prev_point : Coordinate
deriving DecidableEq

/-- `Builder::default()`: all fields zero / empty. -/
instance : Inhabited Builder :=
  ⟨⟨0, 0, 0, 0, 0, [], [], 0, 0, 0, 0, default, default, default⟩⟩

/-- Map a function over a list together with the index of each element,
starting at index `i`.  Used to render Rust's slice-range `fill`. -/
def mapWithIndex (f : ℕ → ℕ → ℕ) : ℕ → List ℕ → List ℕ
  | _, [] => []
  | i, a :: as => f i a :: mapWithIndex f (i + 1) as

/-- Rust `l[lo..].fill(v)`. -/
def listSetFrom (l : List ℕ) (lo v : ℕ) : List ℕ :=
  mapWithIndex (fun i a => if lo ≤ i then v else a) 0 l

/-- Rust `l[lo..=hi].fill(v)` (in all reachable states `lo ≤ hi + 1` and
`hi < l.length`, so the Rust slicing does not panic). -/
def listSetRange (l : List ℕ) (lo hi v : ℕ) : List ℕ :=
  mapWithIndex (fun i a => if lo ≤ i ∧ i ≤ hi then v else a) 0 l

namespace Builder

/-- `Builder::new` for `min ≤ max` (the fields not listed in the source
literal come from `Default::default()`). -/
def mk0 (mn mx : ℕ) : Builder :=
  { min := mn
    max := mx
    shift_bits := shiftBitsOf (mx - mn) RADIX_BITS
    radix_table := List.replicate (2 + ((mx - mn) >>> shiftBitsOf (mx - mn) RADIX_BITS)) 0
    max_error := 32
    prev_x := mn
    prev_pfx := 0
    spline_points := []
    num_points := 0
    prev_y := 0
    distinct := 0
    lower_limit := default
    upper_limit := default
    prev_point := default }

/-- `Builder::new` from the source (swaps the endpoints when `min > max`). -/
def new (a b : ℕ) : Builder :=
  if a > b then mk0 b a else mk0 a b

/-- `Builder::with_error` from the source.  The `assert_eq!` panic is
modelled as `none`. -/
def with_error (b : Builder) (err : ℚ) : Option Builder :=
  if b.num_points = 0 then some { b with max_error := err } else none

/-- `Builder::set_prev_cdf`. -/
def set_prev_cdf (b : Builder) (x : ℕ) (y : ℚ) : Builder :=
  { b with prev_point := ⟨x, y⟩ }

/-- `Builder::set_upper_limit`. -/
def set_upper_limit (b : Builder) (x : ℕ) (y : ℚ) : Builder :=
  { b with upper_limit := ⟨x, y⟩ }

/-- `Builder::set_lower_limit`. -/
def set_lower_limit (b : Builder) (x : ℕ) (y : ℚ) : Builder :=
  { b with lower_limit := ⟨x, y⟩ }

/-- `Builder::add_key_to_spline` from the source. -/
def add_key_to_spline (b : Builder) (coord : Coordinate) : Builder :=
  let sp := b.spline_points ++ [coord]
  let curr_pfx := (coord.x - b.min) >>> b.shift_bits
  if curr_pfx ≠ b.prev_pfx then
    { b with
        spline_points := sp
        radix_table := listSetRange b.radix_table (b.prev_pfx + 1) curr_pfx (sp.length - 1)
        prev_pfx := curr_pfx }
  else
    { b with spline_points := sp }

/-- `Builder::insert` from the source.  The `spline_points.last().unwrap()`
is rendered with `getLastD`: it is only evaluated when `distinct ≥ 2`, and
then `spline_points` is provably non-empty. -/
def insert (b : Builder) (x : ℕ) (y : ℚ) : Builder :=
  if b.num_points = 0 then
    (({ b with distinct := 1 }).add_key_to_spline ⟨x, y⟩).set_prev_cdf x y
  else if x = b.prev_x then
    b
  else
    let b1 : Builder := { b with distinct := b.distinct + 1 }
    let upper_y := y + b1.max_error
    let lower_y := Max.max (y - b1.max_error) 0
    if b1.distinct = 2 then
      ((b1.set_upper_limit x upper_y).set_lower_limit x lower_y).set_prev_cdf x y
    else
      let last := b1.spline_points.getLastD default
      let upper_limit_x_diff := (b1.upper_limit.x : ℚ) - (last.x : ℚ)
      let lower_limit_x_diff := (b1.lower_limit.x : ℚ) - (last.x : ℚ)
      let x_diff := ((x - last.x : ℕ) : ℚ)
      let upper_limit_y_diff := b1.upper_limit.y - last.y
      let lower_limit_y_diff := b1.lower_limit.y - last.y
      let y_diff := y - last.y
      let b2 :=
        if orient upper_limit_x_diff upper_limit_y_diff x_diff y_diff ≠ Orient.Clockwise
            ∨ orient lower_limit_x_diff lower_limit_y_diff x_diff y_diff
                ≠ Orient.Counterclockwise then
          ((b1.add_key_to_spline b1.prev_point).set_upper_limit x upper_y).set_lower_limit
            x lower_y
        else
          let upper_y_diff := upper_y - last.y
          let b' :=
            if orient upper_limit_x_diff upper_limit_y_diff x_diff upper_y_diff
                = Orient.Clockwise then
              b1.set_upper_limit x upper_y
            else b1
          let lower_y_diff := lower_y - last.y
          if orient lower_limit_x_diff lower_limit_y_diff x_diff lower_y_diff
              = Orient.Counterclockwise then
            b'.set_lower_limit x lower_y
          else b'
      b2.set_prev_cdf x y

/-- `Builder::push` from the source. -/
def push (b : Builder) (x : ℕ) : Builder :=
  let y := if b.num_points = 0 then 0 else b.prev_y + 1
  let b' := b.insert x y
  { b' with num_points := b'.num_points + 1, prev_x := x, prev_y := y }

end Builder

/-- `RadixSpline` from the source. -/
structure RadixSpline where
  min : ℕ
  max : ℕ
  shift_bits : ℕ
  max_error : ℚ
  num_points : ℕ
  radix_table : List ℕ
  spline_points : List Coordinate
deriving DecidableEq

/-- `RadixSpline::default()`. -/
instance : Inhabited RadixSpline := ⟨⟨0, 0, 0, 0, 0, [], []⟩⟩

namespace Builder

/-- `Builder::build` from the source.  As in `insert`, the
`last().unwrap()` runs only when `num_points ≠ 0` and `spline_points` is
then provably non-empty, so it is rendered with `getLastD`. -/
def build (b0 : Builder) : RadixSpline :=
  if b0.num_points = 0 then default
  else
    let b :=
      if (b0.spline_points.getLastD default).x ≠ b0.prev_x then
        b0.add_key_to_spline ⟨b0.prev_x, b0.prev_y⟩
      else b0
    let l := b.radix_table.length
    { min := b.min
      max := b.max
      shift_bits := b.shift_bits
      max_error := b.max_error
      num_points := b.num_points
      radix_table := listSetFrom b.radix_table (Nat.min (b.prev_pfx + 1) (l - 1))
        b.spline_points.length
      spline_points := b.spline_points }

end Builder

/-- Rust `f as usize` for the values of `f32` reaching the two casts in
`search_bound`: truncation toward zero, saturating at `0` for negative
inputs. -/
def f32ToUsize (q : ℚ) : ℕ := (Int.floor q).toNat

namespace RadixSpline

/-- The linear-scan branch of `spline_segment`
(`begin + slice.iter().position(|v| &v.x >= key).unwrap()`): `none`
models the panic of the `unwrap` or of an out-of-range slice. -/
def linearBranch (sp : List Coordinate) (bg en key : ℕ) : Option ℕ :=
  if bg ≤ en ∧ en ≤ sp.length then
    (((sp.drop bg).take (en - bg)).findIdx? (fun v => key ≤ v.x)).map (fun i => bg + i)
  else none

/-- The binary-search branch of `spline_segment`.  `slice::binary_search_by`
is modelled by its contract on sorted slices (every reachable slice is
strictly sorted by `x`): `Ok(i)` at the matching index on an exact hit,
`Err(i)` at the insertion point on a miss; the source returns `i` in both
cases, i.e. the first slice position whose `x` is `≥ key`.  `none` models
the panic of an out-of-range slice. -/
def binaryBranch (sp : List Coordinate) (bg en key : ℕ) : Option ℕ :=
  if bg ≤ en ∧ en ≤ sp.length then
    let slice := (sp.drop bg).take (en - bg)
    some ((slice.findIdx? (fun v => key ≤ v.x)).getD slice.length)
  else none

/-- `RadixSpline::spline_segment` from the source.  The guard `bg ≤ en`
on the linear branch renders the `usize` computation `end - begin`: when
`end < begin` the Rust value wraps above `LINEAR_THRESH` and the binary
branch is taken (where slicing then panics). -/
def spline_segment (rs : RadixSpline) (key : ℕ) : Option ℕ :=
  let pfx := (key - rs.min) >>> rs.shift_bits
  match rs.radix_table.get? pfx, rs.radix_table.get? (pfx + 1) with
  | some bg, some en =>
    if en = bg then some bg
    else if bg ≤ en ∧ en - bg < LINEAR_THRESH then
      linearBranch rs.spline_points bg en key
    else
      binaryBranch rs.spline_points bg en key
  | _, _ => none

/-- `RadixSpline::get_estimated_position` from the source.  `none` models
a panic: the `usize` underflow of `num_points - 1` on an empty index, or
an out-of-bounds `spline_points` access. -/
def get_estimated_position (rs : RadixSpline) (key : ℕ) : Option ℚ :=
  if key ≤ rs.min then some 0
  else if key ≥ rs.max then
    if rs.num_points = 0 then none else some ((rs.num_points : ℚ) - 1)
  else
    match rs.spline_segment key with
    | none => none
    | some idx =>
      if idx = 0 then some 0
      else
        match rs.spline_points.get? (idx - 1), rs.spline_points.get? idx with
        | some l, some r =>
          let slope := (r.y - l.y) / ((r.x - l.x : ℕ) : ℚ)
          some (slope * ((key - l.x : ℕ) : ℚ) + l.y)
        | _, _ => none

/-- `RadixSpline::search_bound` from the source. -/
def search_bound (rs : RadixSpline) (key : ℕ) : Option (ℕ × ℕ) :=
  (rs.get_estimated_position key).map fun est =>
    let start := Max.max (est - rs.max_error) 0
    let stop := Min.min (est + rs.max_error + 2) (rs.num_points : ℚ)
    (f32ToUsize start, f32ToUsize stop)

end RadixSpline

/-- Feed a list of keys into a builder, in order. -/
def builderFed (b : Builder) (ks : List ℕ) : Builder :=
  ks.foldl Builder.push b

/-- A fresh builder over `[mn, mx]` with `max_error = E`
(`Builder::new(mn, mx).with_error(E)`; the fresh builder has
`num_points = 0`, so `with_error` cannot fail and `getD` is inert). -/
def newBuilder (mn mx : ℕ) (E : ℚ) : Builder :=
  ((Builder.new mn mx).with_error E).getD (Builder.new mn mx)

/-- Build an index over `[mn, mx]` with error bound `E` from the keys `ks`. -/
def buildFed (mn mx : ℕ) (E : ℚ) (ks : List ℕ) : RadixSpline :=
  (builderFed (newBuilder mn mx E) ks).build

/-- Build an index from a key list using its own endpoints
(`Builder::new(data[0], *data.last())`) and error bound `E`. -/
def buildIndex (E : ℚ) (ks : List ℕ) : RadixSpline :=
  buildFed (ks.headD 0) (ks.getLastD 0) E ks


/-! ### Auxiliary predicates and invariant structures -/

namespace Builder

/-- The collapse test of `insert`, relative to the last knot `last`. -/
def collapses (b : Builder) (x : ℕ) (y : ℚ) (last : Coordinate) : Prop :=
  orient ((b.upper_limit.x : ℚ) - (last.x : ℚ)) (b.upper_limit.y - last.y)
      ((x - last.x : ℕ) : ℚ) (y - last.y) ≠ Orient.Clockwise
    ∨ orient ((b.lower_limit.x : ℚ) - (last.x : ℚ)) (b.lower_limit.y - last.y)
        ((x - last.x : ℕ) : ℚ) (y - last.y) ≠ Orient.Counterclockwise

instance (b : Builder) (x : ℕ) (y : ℚ) (last : Coordinate) :
    Decidable (collapses b x y last) := by
  unfold collapses
  infer_instance

/-- The upper-tightening test of `insert`. -/
def tightensUpper (b : Builder) (x : ℕ) (y : ℚ) (last : Coordinate) : Prop :=
  orient ((b.upper_limit.x : ℚ) - (last.x : ℚ)) (b.upper_limit.y - last.y)
    ((x - last.x : ℕ) : ℚ) (y + b.max_error - last.y) = Orient.Clockwise

instance (b : Builder) (x : ℕ) (y : ℚ) (last : Coordinate) :
    Decidable (tightensUpper b x y last) := by
  unfold tightensUpper
  infer_instance

/-- The lower-tightening test of `insert`. -/
def tightensLower (b : Builder) (x : ℕ) (y : ℚ) (last : Coordinate) : Prop :=
  orient ((b.lower_limit.x : ℚ) - (last.x : ℚ)) (b.lower_limit.y - last.y)
    ((x - last.x : ℕ) : ℚ) (Max.max (y - b.max_error) 0 - last.y) = Orient.Counterclockwise

instance (b : Builder) (x : ℕ) (y : ℚ) (last : Coordinate) :
    Decidable (tightensLower b x y last) := by
  unfold tightensLower
  infer_instance

end Builder

/-- Strict monotonicity in both components, the order of spline knots. -/
def knotLt (p q : Coordinate) : Prop := p.x < q.x ∧ p.y < q.y

instance : IsTrans Coordinate knotLt :=
  ⟨fun _ _ _ h1 h2 => ⟨h1.1.trans h2.1, h1.2.trans h2.2⟩⟩

/-- Structural invariant of a builder that, starting from
`newBuilder mn mx E` with `mn ≤ mx`, has ingested the non-empty,
non-decreasing key list `ks` with all keys inside `[mn, mx]`. -/
structure BState (mn mx : ℕ) (E : ℚ) (ks : List ℕ) (b : Builder) : Prop where
  hne : ks ≠ []
  hmin : b.min = mn
  hmax : b.max = mx
  hsh : b.shift_bits = 0
  herr : b.max_error = E
  hnum : b.num_points = ks.length
  hprevx : b.prev_x = ks.getLastD 0
  hprevy : b.prev_y = (ks.length : ℚ) - 1
  hmnprevx : mn ≤ b.prev_x
  hprevxmx : b.prev_x ≤ mx
  hspne : b.spline_points ≠ []
  hchain : b.spline_points.Chain' knotLt
  hknot : ∀ c ∈ b.spline_points, mn ≤ c.x ∧ c.x ≤ b.prev_x ∧ 0 ≤ c.y ∧ c.y ≤ b.prev_y
  hppx : b.prev_point.x = b.prev_x
  hppy : 0 ≤ b.prev_point.y ∧ b.prev_point.y ≤ b.prev_y
  hdist : 1 ≤ b.distinct
  hsingle : b.distinct = 1 → b.spline_points = [b.prev_point]
  hmulti : 2 ≤ b.distinct → knotLt (b.spline_points.getLastD default) b.prev_point
  hpfx : b.prev_pfx = (b.spline_points.getLastD default).x - mn
  hrtlen : b.radix_table.length = 2 + (mx - mn)
  hrt : ∀ p, p < 2 + (mx - mn) →
    b.radix_table.get? p = some (if p ≤ b.prev_pfx
      then b.spline_points.countP (fun c => decide (c.x < mn + p))
      else 0)

/-- Structural invariant of a built index over `n` ingested keys. -/
structure RSInv (mn mx : ℕ) (E : ℚ) (n : ℕ) (rs : RadixSpline) : Prop where
  hmin : rs.min = mn
  hmax : rs.max = mx
  hsh : rs.shift_bits = 0
  herr : rs.max_error = E
  hnum : rs.num_points = n
  hn1 : 1 ≤ n
  hspne : rs.spline_points ≠ []
  hchain : rs.spline_points.Chain' knotLt
  hknot : ∀ c ∈ rs.spline_points, mn ≤ c.x ∧ 0 ≤ c.y ∧ c.y ≤ (n : ℚ) - 1
  hrtlen : rs.radix_table.length = 2 + (mx - mn)
  hrt : ∀ p, p < 2 + (mx - mn) →
    rs.radix_table.get? p
      = some (rs.spline_points.countP (fun c => decide (c.x < mn + p)))

/-- The interpolation expression of `get_estimated_position` between the
knots `l` and `r`, evaluated at `key`. -/
def interpQ (l r : Coordinate) (key : ℕ) : ℚ :=
  (r.y - l.y) / ((r.x - l.x : ℕ) : ℚ) * ((key - l.x : ℕ) : ℚ) + l.y

/-- Envelope invariant of the greedy spline fitter on strictly increasing
keys: knots are exact data points carrying their ranks, closed segments and
the pending segment deviate from the true rank by at most
`max_error + PREC`, and the feasibility cone honours every rank constraint
accumulated since the last knot, up to the orientation tolerance. -/
structure CState (mn mx : ℕ) (E : ℚ) (ks : List ℕ) (b : Builder) : Prop where
  BS : BState mn mx E ks b
  hE : 0 ≤ E
  hdisteq : b.distinct = ks.length
  hfirst : b.spline_points.get? 0 = some ⟨ks.headD 0, 0⟩
  hknotrk : ∀ c ∈ b.spline_points, ∃ q, ks.get? q = some c.x ∧ c.y = (q : ℚ)
  hprevpt : b.prev_point = ⟨ks.getLastD 0, (ks.length : ℚ) - 1⟩
  hseg : ∀ j l r, b.spline_points.get? j = some l → b.spline_points.get? (j + 1) = some r →
      ∀ i xi, ks.get? i = some xi → l.x ≤ xi → xi ≤ r.x →
        |interpQ l r xi - (i : ℚ)| ≤ E + PREC
  hpend : ∀ i xi, ks.get? i = some xi → (b.spline_points.getLastD default).x ≤ xi →
      |interpQ (b.spline_points.getLastD default) b.prev_point xi - (i : ℚ)| ≤ E + PREC
  hUx : 2 ≤ b.distinct → (b.spline_points.getLastD default).x < b.upper_limit.x
  hLx : 2 ≤ b.distinct → (b.spline_points.getLastD default).x < b.lower_limit.x
  hup : 2 ≤ b.distinct → ∀ i xi, ks.get? i = some xi →
      (b.spline_points.getLastD default).x < xi →
      (b.upper_limit.y - (b.spline_points.getLastD default).y)
          / ((b.upper_limit.x : ℚ) - ((b.spline_points.getLastD default).x : ℚ))
        ≤ ((i : ℚ) + E - (b.spline_points.getLastD default).y + PREC)
          / ((xi - (b.spline_points.getLastD default).x : ℕ) : ℚ)
  hlo : 2 ≤ b.distinct → ∀ i xi, ks.get? i = some xi →
      (b.spline_points.getLastD default).x < xi →
      ((i : ℚ) - E - (b.spline_points.getLastD default).y - PREC)
          / ((xi - (b.spline_points.getLastD default).x : ℕ) : ℚ)
        ≤ (b.lower_limit.y - (b.spline_points.getLastD default).y)
          / ((b.lower_limit.x : ℚ) - ((b.spline_points.getLastD default).x : ℚ))

/-- C1's failing input: `[0, 1]` followed by fourteen copies of `5`
(sorted, endpoints `0` and `5`). -/
def c1Data : List ℕ := [0, 1] ++ List.replicate 14 5

/-- The index built from `c1Data` over `[0, 5]` with `max_error = 1`.
Every f32 operation of this run is exact, so the model tracks the Rust
program bit for bit. -/
def c1RS : RadixSpline := buildFed 0 5 1 c1Data

/-- C2's counterexample data: five copies of `5`. -/
def c2Data : List ℕ := List.replicate 5 5

/-- The index built from `c2Data` over `[5, 5]` with `max_error = 1`. -/
def c2RS : RadixSpline := buildFed 5 5 1 c2Data

/-- C3's failing input: `Builder::new(0, 10)`, keys `[0, 5]` (so
`min ≤ data[0]` and `max = 10 > 5 = last(data)`), then `search_bound(7)`
with `0 < 7 < 10`. -/
def c3RS : RadixSpline := (builderFed (Builder.new 0 10) [0, 5]).build

/-- C4's data: `[0, 1, 2, 10, 11]` with `max_error = 1` forces the knot
`(2, 2)` to be emitted, so the bucket of key `2` starts at `begin = 1`. -/
def c4Data : List ℕ := [0, 1, 2, 10, 11]

/-- The index built from `c4Data` over `[0, 11]` with `max_error = 1`. -/
def c4RS : RadixSpline := buildFed 0 11 1 c4Data

/-- The index built from `[5, 5, 5, 5, 5]` with `Builder::new(5, 5)` and
the default `max_error = 32` (scenario S2). -/
def c6RS : RadixSpline := (builderFed (Builder.new 5 5) (List.replicate 5 5)).build

/-! ### Concrete runs used by the claims -/

unseal Rat.add Rat.sub Rat.mul Rat.inv in
/-- C1: containment fails on the code.  For `c1Data` (non-empty, sorted)
built with its endpoints and `max_error = 1 > 0`, the key `1` occurs in
the data (at index 1), but `search_bound 1 = (2, 6)` and `1` does not
occur in `c1Data[2..6]`.  (`build` stores the final knot with
`y = prev_y`, the rank of the *last* duplicate of the final key, which
inflates the last spline segment.) -/
theorem c1_containment_fails :
    c1RS.search_bound 1 = some (2, 6)
    ∧ c1Data.get? 1 = some 1
    ∧ ¬ (1 ∈ (c1Data.drop 2).take (6 - 2)) := by decide

unseal Rat.add Rat.sub Rat.mul Rat.inv in
/-- C2 counterexample: the error envelope fails for duplicate ranks.  The
key `5` has rank `4` in `c2Data`, `max_error = 1`, but
`get_estimated_position 5 = 0` and `|0 − 4| > max_error + 1`. -/
theorem c2_envelope_counterexample :
    c2RS.get_estimated_position 5 = some 0
    ∧ c2Data.get? 4 = some 5
    ∧ c2RS.max_error = 1
    ∧ ¬ (|(0 : ℚ) - 4| ≤ 1 + 1) := by decide

unseal Rat.add Rat.sub Rat.mul Rat.inv in
/-- C3: the query path *does* panic.  On the index built over `[0, 10]`
from keys `[0, 5]`, the key `7` (strictly between `min` and `max`, larger
than every ingested key) drives `spline_segment` to return
`spline_points.len()`, and `get_estimated_position` then indexes
`spline_points[2]` out of bounds (modelled by `none`). -/
theorem c3_query_panics :
    c3RS.min = 0 ∧ c3RS.max = 10
    ∧ c3RS.spline_segment 7 = some 2
    ∧ c3RS.spline_points.length = 2
    ∧ c3RS.search_bound 7 = none := by decide

unseal Rat.add Rat.sub Rat.mul Rat.inv in
/-- C4 counterexample: the two search branches do not return the same
index.  In the built index, key `2` (with `min < 2 < max`) has the bucket
`[radix_table[2], radix_table[3]) = [1, 2)`; the linear-scan branch
returns `1` (what `spline_segment` returns), but the binary-search branch
returns the slice-relative `0` — it omits the `begin` offset. -/
theorem c4_branch_counterexample :
    c4RS.radix_table.get? 2 = some 1
    ∧ c4RS.radix_table.get? 3 = some 2
    ∧ RadixSpline.linearBranch c4RS.spline_points 1 2 2 = some 1
    ∧ RadixSpline.binaryBranch c4RS.spline_points 1 2 2 = some 0
    ∧ c4RS.spline_segment 2 = some 1
    ∧ RadixSpline.linearBranch c4RS.spline_points 1 2 2
        ≠ RadixSpline.binaryBranch c4RS.spline_points 1 2 2 := by decide

/-- C5: the stored shift amount is not `max(0, 32 − R − clz(max − min))`.
The code computes `size_of::<u32>() = 4` (bytes, not bits), so
`4.saturating_sub(10)` is already `0` and the stored shift is `0` for
*every* key range; on `Builder::new(0, 1024)` the claimed formula gives
`32 − 10 − 21 = 1` instead. -/
theorem c5_shift_bits_zero :
    (∀ diff, shiftBitsOf diff RADIX_BITS = 0)
    ∧ (Builder.new 0 1024).shift_bits = 0
    ∧ specShiftBits 1024 = 1 := by
  refine ⟨fun diff => ?_, by decide, by decide⟩
  show 4 - 10 - leading_zeros diff = 0
  omega

unseal Rat.add Rat.sub Rat.mul Rat.inv in
/-- C6 counterexample: `get_estimated_position(5)` is `0`, not `4`: with
`min = max = 5` the `key ≤ min` branch fires before the last-index rule. -/
theorem c6_estimate_counterexample :
    c6RS.get_estimated_position 5 = some 0
    ∧ (some (0 : ℚ) ≠ some (4 : ℚ)) := by decide

unseal Rat.add Rat.sub Rat.mul Rat.inv in
/-- C6 amended: on `data = [5, 5, 5, 5, 5]` with `Builder::new(5, 5)`,
`num_points = 5` and `search_bound(5) = (0, 5)` (covering indices 0
through 4) hold, but `get_estimated_position(5) = 0` (the `key ≤ min`
rule wins over the last-index rule when `min = max`). -/
theorem c6_s2_behavior :
    c6RS.num_points = 5
    ∧ c6RS.get_estimated_position 5 = some 0
    ∧ c6RS.search_bound 5 = some (0, 5) := by decide

/-- C9: `with_error` fails (panics) exactly when at least one key has
been pushed, leaving nothing else observable; before any push it sets
`max_error` and modifies no other field (the record update is literally
`b` with only `max_error` replaced). -/
theorem c9_with_error_spec (b : Builder) (e : ℚ) :
    (0 < b.num_points → b.with_error e = none)
    ∧ (b.num_points = 0 → b.with_error e = some { b with max_error := e }) := by
  constructor
  · intro h
    rw [Builder.with_error, if_neg (by omega)]
  · intro h
    rw [Builder.with_error, if_pos h]

unseal Rat.add Rat.sub Rat.mul Rat.inv in
/-- Witness for C9 at concrete builders: one with a pushed key, one fresh. -/
theorem c9_with_error_spec_witness :
    ((Builder.new 0 10).push 3).with_error 7 = none
    ∧ (Builder.new 0 10).with_error 7 = some { Builder.new 0 10 with max_error := 7 } :=
  ⟨(c9_with_error_spec ((Builder.new 0 10).push 3) 7).1 (by decide),
   (c9_with_error_spec (Builder.new 0 10) 7).2 (by decide)⟩

unseal Rat.add Rat.sub Rat.mul Rat.inv in
/-- C10: `build` on a builder with zero pushed keys returns the defaulted
index; on it `search_bound 0 = (0, 0)`, while every key `k > 0` reaches
`num_points - 1` with `num_points = 0` — a `usize` underflow (modelled as
`none`) — so `search_bound` is not the clamped `(0, 0)` for all keys. -/
theorem c10_empty_build (a b k : ℕ) (hk : 0 < k) :
    (Builder.new a b).build = default
    ∧ (default : RadixSpline).search_bound 0 = some (0, 0)
    ∧ (default : RadixSpline).search_bound k = none := by
  refine ⟨?_, by decide, ?_⟩
  · rw [Builder.new]
    split <;> rfl
  · show ((⟨0, 0, 0, 0, 0, [], []⟩ : RadixSpline).get_estimated_position k).map _ = none
    rw [RadixSpline.get_estimated_position]
    simp [show ¬ (k ≤ 0) from by omega]

/-- Witness for C10 at `a = 3`, `b = 7`, `k = 1`. -/
theorem c10_empty_build_witness :
    (Builder.new 3 7).build = default
    ∧ (default : RadixSpline).search_bound 0 = some (0, 0)
    ∧ (default : RadixSpline).search_bound 1 = none :=
  c10_empty_build 3 7 1 (by decide)

/-! ### List helper lemmas -/

theorem mapWithIndex_length (f : ℕ → ℕ → ℕ) :
    ∀ (i : ℕ) (l : List ℕ), (mapWithIndex f i l).length = l.length
  | _, [] => rfl
  | i, a :: as => by
      simp only [mapWithIndex, List.length_cons, mapWithIndex_length f (i + 1) as]

theorem mapWithIndex_get? (f : ℕ → ℕ → ℕ) :
    ∀ (i j : ℕ) (l : List ℕ),
      (mapWithIndex f i l).get? j = (l.get? j).map (f (i + j))
  | _, _, [] => by simp [mapWithIndex]
  | i, 0, a :: as => by simp [mapWithIndex]
  | i, j + 1, a :: as => by
      have h1 : i + 1 + j = i + (j + 1) := by omega
      have h2 := mapWithIndex_get? f (i + 1) j as
      simp only [mapWithIndex, List.get?_cons_succ, h2, h1]

theorem listSetFrom_get? (l : List ℕ) (lo v j : ℕ) :
    (listSetFrom l lo v).get? j = (l.get? j).map (fun a => if lo ≤ j then v else a) := by
  simp only [listSetFrom, mapWithIndex_get?, Nat.zero_add]

theorem listSetRange_get? (l : List ℕ) (lo hi v j : ℕ) :
    (listSetRange l lo hi v).get? j
      = (l.get? j).map (fun a => if lo ≤ j ∧ j ≤ hi then v else a) := by
  simp only [listSetRange, mapWithIndex_get?, Nat.zero_add]

@[simp] theorem listSetFrom_length (l : List ℕ) (lo v : ℕ) :
    (listSetFrom l lo v).length = l.length :=
  mapWithIndex_length _ _ _

@[simp] theorem listSetRange_length (l : List ℕ) (lo hi v : ℕ) :
    (listSetRange l lo hi v).length = l.length :=
  mapWithIndex_length _ _ _

/-! ### Builder step lemmas -/

namespace Builder
@[simp] theorem set_prev_cdf_min (b : Builder) (x : ℕ) (y : ℚ) : (b.set_prev_cdf x y).min = b.min := rfl
@[simp] theorem set_prev_cdf_max (b : Builder) (x : ℕ) (y : ℚ) : (b.set_prev_cdf x y).max = b.max := rfl
@[simp] theorem set_prev_cdf_shift_bits (b : Builder) (x : ℕ) (y : ℚ) : (b.set_prev_cdf x y).shift_bits = b.shift_bits := rfl
@[simp] theorem set_prev_cdf_max_error (b : Builder) (x : ℕ) (y : ℚ) : (b.set_prev_cdf x y).max_error = b.max_error := rfl
@[simp] theorem set_prev_cdf_prev_pfx (b : Builder) (x : ℕ) (y : ℚ) : (b.set_prev_cdf x y).prev_pfx = b.prev_pfx := rfl
@[simp] theorem set_prev_cdf_radix_table (b : Builder) (x : ℕ) (y : ℚ) : (b.set_prev_cdf x y).radix_table = b.radix_table := rfl
@[simp] theorem set_prev_cdf_spline_points (b : Builder) (x : ℕ) (y : ℚ) : (b.set_prev_cdf x y).spline_points = b.spline_points := rfl
@[simp] theorem set_prev_cdf_num_points (b : Builder) (x : ℕ) (y : ℚ) : (b.set_prev_cdf x y).num_points = b.num_points := rfl
@[simp] theorem set_prev_cdf_prev_y (b : Builder) (x : ℕ) (y : ℚ) : (b.set_prev_cdf x y).prev_y = b.prev_y := rfl
@[simp] theorem set_prev_cdf_prev_x (b : Builder) (x : ℕ) (y : ℚ) : (b.set_prev_cdf x y).prev_x = b.prev_x := rfl
@[simp] theorem set_prev_cdf_distinct (b : Builder) (x : ℕ) (y : ℚ) : (b.set_prev_cdf x y).distinct = b.distinct := rfl
@[simp] theorem set_prev_cdf_lower_limit (b : Builder) (x : ℕ) (y : ℚ) : (b.set_prev_cdf x y).lower_limit = b.lower_limit := rfl
@[simp] theorem set_prev_cdf_upper_limit (b : Builder) (x : ℕ) (y : ℚ) : (b.set_prev_cdf x y).upper_limit = b.upper_limit := rfl

@[simp] theorem set_prev_cdf_prev_point (b : Builder) (x : ℕ) (y : ℚ) : (b.set_prev_cdf x y).prev_point = (⟨x, y⟩ : Coordinate) := rfl
@[simp] theorem set_upper_limit_min (b : Builder) (x : ℕ) (y : ℚ) : (b.set_upper_limit x y).min = b.min := rfl
@[simp] theorem set_upper_limit_max (b : Builder) (x : ℕ) (y : ℚ) : (b.set_upper_limit x y).max = b.max := rfl
@[simp] theorem set_upper_limit_shift_bits (b : Builder) (x : ℕ) (y : ℚ) : (b.set_upper_limit x y).shift_bits = b.shift_bits := rfl
@[simp] theorem set_upper_limit_max_error (b : Builder) (x : ℕ) (y : ℚ) : (b.set_upper_limit x y).max_error = b.max_error := rfl
@[simp] theorem set_upper_limit_prev_pfx (b : Builder) (x : ℕ) (y : ℚ) : (b.set_upper_limit x y).prev_pfx = b.prev_pfx := rfl
@[simp] theorem set_upper_limit_radix_table (b : Builder) (x : ℕ) (y : ℚ) : (b.set_upper_limit x y).radix_table = b.radix_table := rfl
@[simp] theorem set_upper_limit_spline_points (b : Builder) (x : ℕ) (y : ℚ) : (b.set_upper_limit x y).spline_points = b.spline_points := rfl
@[simp] theorem set_upper_limit_num_points (b : Builder) (x : ℕ) (y : ℚ) : (b.set_upper_limit x y).num_points = b.num_points := rfl
@[simp] theorem set_upper_limit_prev_y (b : Builder) (x : ℕ) (y : ℚ) : (b.set_upper_limit x y).prev_y = b.prev_y := rfl
@[simp] theorem set_upper_limit_prev_x (b : Builder) (x : ℕ) (y : ℚ) : (b.set_upper_limit x y).prev_x = b.prev_x := rfl
@[simp] theorem set_upper_limit_distinct (b : Builder) (x : ℕ) (y : ℚ) : (b.set_upper_limit x y).distinct = b.distinct := rfl
@[simp] theorem set_upper_limit_lower_limit (b : Builder) (x : ℕ) (y : ℚ) : (b.set_upper_limit x y).lower_limit = b.lower_limit := rfl

@[simp] theorem set_upper_limit_upper_limit (b : Builder) (x : ℕ) (y : ℚ) : (b.set_upper_limit x y).upper_limit = (⟨x, y⟩ : Coordinate) := rfl
@[simp] theorem set_upper_limit_prev_point (b : Builder) (x : ℕ) (y : ℚ) : (b.set_upper_limit x y).prev_point = b.prev_point := rfl
@[simp] theorem set_lower_limit_min (b : Builder) (x : ℕ) (y : ℚ) : (b.set_lower_limit x y).min = b.min := rfl
@[simp] theorem set_lower_limit_max (b : Builder) (x : ℕ) (y : ℚ) : (b.set_lower_limit x y).max = b.max := rfl
@[simp] theorem set_lower_limit_shift_bits (b : Builder) (x : ℕ) (y : ℚ) : (b.set_lower_limit x y).shift_bits = b.shift_bits := rfl
@[simp] theorem set_lower_limit_max_error (b : Builder) (x : ℕ) (y : ℚ) : (b.set_lower_limit x y).max_error = b.max_error := rfl
@[simp] theorem set_lower_limit_prev_pfx (b : Builder) (x : ℕ) (y : ℚ) : (b.set_lower_limit x y).prev_pfx = b.prev_pfx := rfl
@[simp] theorem set_lower_limit_radix_table (b : Builder) (x : ℕ) (y : ℚ) : (b.set_lower_limit x y).radix_table = b.radix_table := rfl
@[simp] theorem set_lower_limit_spline_points (b : Builder) (x : ℕ) (y : ℚ) : (b.set_lower_limit x y).spline_points = b.spline_points := rfl
@[simp] theorem set_lower_limit_num_points (b : Builder) (x : ℕ) (y : ℚ) : (b.set_lower_limit x y).num_points = b.num_points := rfl
@[simp] theorem set_lower_limit_prev_y (b : Builder) (x : ℕ) (y : ℚ) : (b.set_lower_limit x y).prev_y = b.prev_y := rfl
@[simp] theorem set_lower_limit_prev_x (b : Builder) (x : ℕ) (y : ℚ) : (b.set_lower_limit x y).prev_x = b.prev_x := rfl
@[simp] theorem set_lower_limit_distinct (b : Builder) (x : ℕ) (y : ℚ) : (b.set_lower_limit x y).distinct = b.distinct := rfl

@[simp] theorem set_lower_limit_lower_limit (b : Builder) (x : ℕ) (y : ℚ) : (b.set_lower_limit x y).lower_limit = (⟨x, y⟩ : Coordinate) := rfl
@[simp] theorem set_lower_limit_upper_limit (b : Builder) (x : ℕ) (y : ℚ) : (b.set_lower_limit x y).upper_limit = b.upper_limit := rfl
@[simp] theorem set_lower_limit_prev_point (b : Builder) (x : ℕ) (y : ℚ) : (b.set_lower_limit x y).prev_point = b.prev_point := rfl

@[simp] theorem add_key_min (b : Builder) (c : Coordinate) :
    (b.add_key_to_spline c).min = b.min := by
  simp only [add_key_to_spline]
  split <;> rfl

@[simp] theorem add_key_max (b : Builder) (c : Coordinate) :
    (b.add_key_to_spline c).max = b.max := by
  simp only [add_key_to_spline]
  split <;> rfl

@[simp] theorem add_key_shift_bits (b : Builder) (c : Coordinate) :
    (b.add_key_to_spline c).shift_bits = b.shift_bits := by
  simp only [add_key_to_spline]
  split <;> rfl

@[simp] theorem add_key_max_error (b : Builder) (c : Coordinate) :
    (b.add_key_to_spline c).max_error = b.max_error := by
  simp only [add_key_to_spline]
  split <;> rfl

@[simp] theorem add_key_num_points (b : Builder) (c : Coordinate) :
    (b.add_key_to_spline c).num_points = b.num_points := by
  simp only [add_key_to_spline]
  split <;> rfl

@[simp] theorem add_key_prev_y (b : Builder) (c : Coordinate) :
    (b.add_key_to_spline c).prev_y = b.prev_y := by
  simp only [add_key_to_spline]
  split <;> rfl

@[simp] theorem add_key_prev_x (b : Builder) (c : Coordinate) :
    (b.add_key_to_spline c).prev_x = b.prev_x := by
  simp only [add_key_to_spline]
  split <;> rfl

@[simp] theorem add_key_distinct (b : Builder) (c : Coordinate) :
    (b.add_key_to_spline c).distinct = b.distinct := by
  simp only [add_key_to_spline]
  split <;> rfl

@[simp] theorem add_key_lower_limit (b : Builder) (c : Coordinate) :
    (b.add_key_to_spline c).lower_limit = b.lower_limit := by
  simp only [add_key_to_spline]
  split <;> rfl

@[simp] theorem add_key_upper_limit (b : Builder) (c : Coordinate) :
    (b.add_key_to_spline c).upper_limit = b.upper_limit := by
  simp only [add_key_to_spline]
  split <;> rfl

@[simp] theorem add_key_prev_point (b : Builder) (c : Coordinate) :
    (b.add_key_to_spline c).prev_point = b.prev_point := by
  simp only [add_key_to_spline]
  split <;> rfl

@[simp] theorem add_key_spline_points (b : Builder) (c : Coordinate) :
    (b.add_key_to_spline c).spline_points = b.spline_points ++ [c] := by
  simp only [add_key_to_spline]
  split <;> rfl

theorem add_key_prev_pfx (b : Builder) (c : Coordinate) :
    (b.add_key_to_spline c).prev_pfx =
      if (c.x - b.min) >>> b.shift_bits ≠ b.prev_pfx then (c.x - b.min) >>> b.shift_bits
      else b.prev_pfx := by
  simp only [add_key_to_spline]
  split <;> simp_all

theorem add_key_radix_table (b : Builder) (c : Coordinate) :
    (b.add_key_to_spline c).radix_table =
      if (c.x - b.min) >>> b.shift_bits ≠ b.prev_pfx then
        listSetRange b.radix_table (b.prev_pfx + 1) ((c.x - b.min) >>> b.shift_bits)
          ((b.spline_points ++ [c]).length - 1)
      else b.radix_table := by
  simp only [add_key_to_spline]
  split <;> simp_all

@[simp] theorem add_key_radix_table_length (b : Builder) (c : Coordinate) :
    (b.add_key_to_spline c).radix_table.length = b.radix_table.length := by
  rw [add_key_radix_table]
  split <;> simp

/-- `insert` in the very first push. -/
theorem insert_first (b : Builder) (x : ℕ) (y : ℚ) (h : b.num_points = 0) :
    b.insert x y
      = (({ b with distinct := 1 }).add_key_to_spline ⟨x, y⟩).set_prev_cdf x y := by
  unfold insert
  rw [if_pos h]

/-- `insert` on a duplicate key. -/
theorem insert_dup (b : Builder) (x : ℕ) (y : ℚ) (h : b.num_points ≠ 0)
    (hx : x = b.prev_x) : b.insert x y = b := by
  unfold insert
  rw [if_neg h, if_pos hx]

/-- `insert` on the second distinct key: the cone is initialised. -/
theorem insert_second (b : Builder) (x : ℕ) (y : ℚ) (h : b.num_points ≠ 0)
    (hx : x ≠ b.prev_x) (hd : b.distinct + 1 = 2) :
    b.insert x y =
      (((({ b with distinct := b.distinct + 1 } : Builder)).set_upper_limit x
          (y + b.max_error)).set_lower_limit x (Max.max (y - b.max_error) 0)).set_prev_cdf
        x y := by
  unfold insert
  rw [if_neg h, if_neg hx, if_pos hd]

/-- In a later-distinct-key `insert` (`distinct ≥ 3` afterwards), the
spline gains the previous point exactly when the collapse test fires. -/
theorem insert_big_spline_points (b : Builder) (x : ℕ) (y : ℚ) (h : b.num_points ≠ 0)
    (hx : x ≠ b.prev_x) (hd : b.distinct + 1 ≠ 2) :
    (b.insert x y).spline_points =
      if collapses b x y (b.spline_points.getLastD default) then
        b.spline_points ++ [b.prev_point]
      else b.spline_points := by
  unfold insert
  rw [if_neg h, if_neg hx, if_neg hd]
  simp only [set_prev_cdf, set_upper_limit, set_lower_limit]
  split
  · rename_i hc
    rw [if_pos (show collapses b x y (b.spline_points.getLastD default) from hc)]
    simp
  · rename_i hc
    rw [if_neg (show ¬ collapses b x y (b.spline_points.getLastD default) from hc)]
    split <;> split <;> simp

theorem insert_big_radix_table (b : Builder) (x : ℕ) (y : ℚ) (h : b.num_points ≠ 0)
    (hx : x ≠ b.prev_x) (hd : b.distinct + 1 ≠ 2) :
    (b.insert x y).radix_table =
      if collapses b x y (b.spline_points.getLastD default) then
        (({ b with distinct := b.distinct + 1 } : Builder).add_key_to_spline
          b.prev_point).radix_table
      else b.radix_table := by
  unfold insert
  rw [if_neg h, if_neg hx, if_neg hd]
  simp only [set_prev_cdf, set_upper_limit, set_lower_limit]
  split
  · rename_i hc
    rw [if_pos (show collapses b x y (b.spline_points.getLastD default) from hc)]
  · rename_i hc
    rw [if_neg (show ¬ collapses b x y (b.spline_points.getLastD default) from hc)]
    try split <;> split <;> simp

theorem insert_big_prev_pfx (b : Builder) (x : ℕ) (y : ℚ) (h : b.num_points ≠ 0)
    (hx : x ≠ b.prev_x) (hd : b.distinct + 1 ≠ 2) :
    (b.insert x y).prev_pfx =
      if collapses b x y (b.spline_points.getLastD default) then
        (({ b with distinct := b.distinct + 1 } : Builder).add_key_to_spline
          b.prev_point).prev_pfx
      else b.prev_pfx := by
  unfold insert
  rw [if_neg h, if_neg hx, if_neg hd]
  simp only [set_prev_cdf, set_upper_limit, set_lower_limit]
  split
  · rename_i hc
    rw [if_pos (show collapses b x y (b.spline_points.getLastD default) from hc)]
  · rename_i hc
    rw [if_neg (show ¬ collapses b x y (b.spline_points.getLastD default) from hc)]
    try split <;> split <;> simp

theorem insert_big_prev_point (b : Builder) (x : ℕ) (y : ℚ) (h : b.num_points ≠ 0)
    (hx : x ≠ b.prev_x) (hd : b.distinct + 1 ≠ 2) :
    (b.insert x y).prev_point = ⟨x, y⟩ := by
  unfold insert
  rw [if_neg h, if_neg hx, if_neg hd]
  simp only [set_prev_cdf, set_upper_limit, set_lower_limit]

theorem insert_big_distinct (b : Builder) (x : ℕ) (y : ℚ) (h : b.num_points ≠ 0)
    (hx : x ≠ b.prev_x) (hd : b.distinct + 1 ≠ 2) :
    (b.insert x y).distinct = b.distinct + 1 := by
  unfold insert
  rw [if_neg h, if_neg hx, if_neg hd]
  simp only [set_prev_cdf, set_upper_limit, set_lower_limit]
  split
  · simp
  · split <;> split <;> simp

theorem insert_big_upper_limit (b : Builder) (x : ℕ) (y : ℚ) (h : b.num_points ≠ 0)
    (hx : x ≠ b.prev_x) (hd : b.distinct + 1 ≠ 2) :
    (b.insert x y).upper_limit =
      if collapses b x y (b.spline_points.getLastD default) then
        (⟨x, y + b.max_error⟩ : Coordinate)
      else if tightensUpper b x y (b.spline_points.getLastD default) then
        (⟨x, y + b.max_error⟩ : Coordinate)
      else b.upper_limit := by
  unfold insert
  rw [if_neg h, if_neg hx, if_neg hd]
  simp only [set_prev_cdf, set_upper_limit, set_lower_limit]
  split
  · rename_i hc
    rw [if_pos (show collapses b x y (b.spline_points.getLastD default) from hc)]
    try simp
  · rename_i hc
    rw [if_neg (show ¬ collapses b x y (b.spline_points.getLastD default) from hc)]
    split <;> split
    · rename_i hlow hup
      rw [if_pos (show tightensUpper b x y (b.spline_points.getLastD default) from hup)]
      try simp
    · rename_i hlow hup
      rw [if_neg (show ¬ tightensUpper b x y (b.spline_points.getLastD default) from hup)]
      try simp
    · rename_i hlow hup
      rw [if_pos (show tightensUpper b x y (b.spline_points.getLastD default) from hup)]
      try simp
    · rename_i hlow hup
      rw [if_neg (show ¬ tightensUpper b x y (b.spline_points.getLastD default) from hup)]
      try simp

theorem insert_big_lower_limit (b : Builder) (x : ℕ) (y : ℚ) (h : b.num_points ≠ 0)
    (hx : x ≠ b.prev_x) (hd : b.distinct + 1 ≠ 2) :
    (b.insert x y).lower_limit =
      if collapses b x y (b.spline_points.getLastD default) then
        (⟨x, Max.max (y - b.max_error) 0⟩ : Coordinate)
      else if tightensLower b x y (b.spline_points.getLastD default) then
        (⟨x, Max.max (y - b.max_error) 0⟩ : Coordinate)
      else b.lower_limit := by
  unfold insert
  rw [if_neg h, if_neg hx, if_neg hd]
  simp only [set_prev_cdf, set_upper_limit, set_lower_limit]
  split
  · rename_i hc
    rw [if_pos (show collapses b x y (b.spline_points.getLastD default) from hc)]
    try simp
  · rename_i hc
    rw [if_neg (show ¬ collapses b x y (b.spline_points.getLastD default) from hc)]
    split <;> split
    · rename_i hlow hup
      rw [if_pos (show tightensLower b x y (b.spline_points.getLastD default) from hlow)]
      try simp
    · rename_i hlow hup
      rw [if_pos (show tightensLower b x y (b.spline_points.getLastD default) from hlow)]
      try simp
    · rename_i hlow hup
      rw [if_neg (show ¬ tightensLower b x y (b.spline_points.getLastD default) from hlow)]
      try simp
    · rename_i hlow hup
      rw [if_neg (show ¬ tightensLower b x y (b.spline_points.getLastD default) from hlow)]
      try simp

@[simp] theorem insert_min (b : Builder) (x : ℕ) (y : ℚ) : (b.insert x y).min = b.min := by
  unfold insert
  simp only [set_prev_cdf, set_upper_limit, set_lower_limit]
  repeat' split
  all_goals simp

@[simp] theorem insert_max (b : Builder) (x : ℕ) (y : ℚ) : (b.insert x y).max = b.max := by
  unfold insert
  simp only [set_prev_cdf, set_upper_limit, set_lower_limit]
  repeat' split
  all_goals simp

@[simp] theorem insert_shift_bits (b : Builder) (x : ℕ) (y : ℚ) :
    (b.insert x y).shift_bits = b.shift_bits := by
  unfold insert
  simp only [set_prev_cdf, set_upper_limit, set_lower_limit]
  repeat' split
  all_goals simp

@[simp] theorem insert_max_error (b : Builder) (x : ℕ) (y : ℚ) :
    (b.insert x y).max_error = b.max_error := by
  unfold insert
  simp only [set_prev_cdf, set_upper_limit, set_lower_limit]
  repeat' split
  all_goals simp

@[simp] theorem insert_num_points (b : Builder) (x : ℕ) (y : ℚ) :
    (b.insert x y).num_points = b.num_points := by
  unfold insert
  simp only [set_prev_cdf, set_upper_limit, set_lower_limit]
  repeat' split
  all_goals simp

@[simp] theorem insert_prev_x (b : Builder) (x : ℕ) (y : ℚ) :
    (b.insert x y).prev_x = b.prev_x := by
  unfold insert
  simp only [set_prev_cdf, set_upper_limit, set_lower_limit]
  repeat' split
  all_goals simp

@[simp] theorem insert_prev_y (b : Builder) (x : ℕ) (y : ℚ) :
    (b.insert x y).prev_y = b.prev_y := by
  unfold insert
  simp only [set_prev_cdf, set_upper_limit, set_lower_limit]
  repeat' split
  all_goals simp

@[simp] theorem insert_radix_table_length (b : Builder) (x : ℕ) (y : ℚ) :
    (b.insert x y).radix_table.length = b.radix_table.length := by
  unfold insert
  simp only [set_prev_cdf, set_upper_limit, set_lower_limit]
  repeat' split
  all_goals simp

/-- `push` as a record update of `insert`'s result. -/
theorem push_eq (b : Builder) (x : ℕ) :
    b.push x =
      { b.insert x (if b.num_points = 0 then 0 else b.prev_y + 1) with
          num_points :=
            (b.insert x (if b.num_points = 0 then 0 else b.prev_y + 1)).num_points + 1,
          prev_x := x,
          prev_y := if b.num_points = 0 then 0 else b.prev_y + 1 } := rfl

@[simp] theorem push_min (b : Builder) (x : ℕ) : (b.push x).min = b.min := by
  rw [push_eq]; simp

@[simp] theorem push_max (b : Builder) (x : ℕ) : (b.push x).max = b.max := by
  rw [push_eq]; simp

@[simp] theorem push_shift_bits (b : Builder) (x : ℕ) :
    (b.push x).shift_bits = b.shift_bits := by
  rw [push_eq]; simp

@[simp] theorem push_max_error (b : Builder) (x : ℕ) :
    (b.push x).max_error = b.max_error := by
  rw [push_eq]; simp

@[simp] theorem push_num_points (b : Builder) (x : ℕ) :
    (b.push x).num_points = b.num_points + 1 := by
  rw [push_eq]; simp

@[simp] theorem push_prev_x (b : Builder) (x : ℕ) : (b.push x).prev_x = x := by
  rw [push_eq]

@[simp] theorem push_prev_y (b : Builder) (x : ℕ) :
    (b.push x).prev_y = if b.num_points = 0 then 0 else b.prev_y + 1 := by
  rw [push_eq]

@[simp] theorem push_radix_table_length (b : Builder) (x : ℕ) :
    (b.push x).radix_table.length = b.radix_table.length := by
  rw [push_eq]; simp

end Builder

/-! ### Sorted-knot lemmas -/

theorem knotLt_trans {p q r : Coordinate} (h1 : knotLt p q) (h2 : knotLt q r) :
    knotLt p r :=
  ⟨h1.1.trans h2.1, h1.2.trans h2.2⟩

theorem chain_le_last :
    ∀ (sp : List Coordinate), sp.Chain' knotLt →
      ∀ d ∈ sp, d.x ≤ (sp.getLastD default).x ∧ d.y ≤ (sp.getLastD default).y
  | [], _, d, hd => by cases hd
  | [a], _, d, hd => by
      rcases List.mem_singleton.mp hd with rfl
      exact ⟨le_refl _, le_refl _⟩
  | a :: b :: t, h, d, hd => by
      have hab : knotLt a b := (List.chain'_cons.mp h).1
      have ht : (b :: t).Chain' knotLt := (List.chain'_cons.mp h).2
      have hlast : (a :: b :: t).getLastD default = (b :: t).getLastD default := rfl
      rw [hlast]
      rcases List.mem_cons.mp hd with rfl | hd'
      · have hb := chain_le_last (b :: t) ht b (List.mem_cons_self b t)
        exact ⟨le_trans (le_of_lt hab.1) hb.1, le_trans (le_of_lt hab.2) hb.2⟩
      · exact chain_le_last (b :: t) ht d hd'

/-- In an `x`-sorted knot list, the entry at index `i` is below `key`
exactly when `i` is below the count of knots below `key`. -/
theorem sorted_get_count :
    ∀ (sp : List Coordinate), sp.Pairwise knotLt → ∀ (key i : ℕ) (c : Coordinate),
      sp.get? i = some c →
      (c.x < key ↔ i < sp.countP (fun v => decide (v.x < key)))
  | [], _, _, _, _, hc => by simp at hc
  | a :: t, h, key, 0, c, hc => by
      have hc' : a = c := by simpa using hc
      subst hc'
      rcases List.pairwise_cons.mp h with ⟨hrel, ht⟩
      simp only [List.countP_cons]
      by_cases ha : a.x < key
      · have hda : (decide (a.x < key)) = true := by simpa using ha
        rw [hda]
        simp [ha]
      · have ht0 : t.countP (fun v => decide (v.x < key)) = 0 :=
          List.countP_eq_zero.mpr (by
            intro d hd
            have hax := (hrel d hd).1
            simp only [decide_eq_true_eq]
            omega)
        have hda : (decide (a.x < key)) = false := by simpa using ha
        rw [hda, ht0]
        simp [ha]
  | a :: t, h, key, i + 1, c, hc => by
      have hc' : t.get? i = some c := by simpa using hc
      rcases List.pairwise_cons.mp h with ⟨hrel, ht⟩
      have ih := sorted_get_count t ht key i c hc'
      simp only [List.countP_cons]
      by_cases ha : a.x < key
      · have hda : (decide (a.x < key)) = true := by simpa using ha
        rw [hda, ih]
        simp only [if_true]
        omega
      · have ht0 : t.countP (fun v => decide (v.x < key)) = 0 :=
          List.countP_eq_zero.mpr (by
            intro d hd
            have hax := (hrel d hd).1
            simp only [decide_eq_true_eq]
            omega)
        have hcm : c ∈ t := List.get?_mem hc'
        have hcx : ¬ (c.x < key) := by
          have := (hrel c hcm).1
          omega
        have hda : (decide (a.x < key)) = false := by simpa using ha
        rw [hda, ht0]
        simp [hcx]

/-- `shiftBitsOf` is `0` for every range: `size_of::<u32>() = 4 < RADIX_BITS`. -/
theorem shiftBitsOf_eq_zero (diff : ℕ) : shiftBitsOf diff RADIX_BITS = 0 := by
  show 4 - 10 - leading_zeros diff = 0
  omega

theorem replicate_get? (n v p : ℕ) :
    (List.replicate n v).get? p = if p < n then some v else none := by
  rw [List.get?_eq_getElem?, List.getElem?_replicate]

/-- Effect of `add_key_to_spline` on the prefix and the radix table, under
the side conditions holding in every reachable state: the new knot lies at
or beyond the prefix of the last knot, inside `[mn, mx]`. -/
theorem add_key_table_spec (b : Builder) (c : Coordinate) (mn mx : ℕ)
    (hmin : b.min = mn) (hsh : b.shift_bits = 0)
    (hrtlen : b.radix_table.length = 2 + (mx - mn))
    (hd_le : ∀ d ∈ b.spline_points, d.x ≤ mn + b.prev_pfx)
    (hc1 : mn ≤ c.x) (hc3 : mn + b.prev_pfx ≤ c.x)
    (hrt : ∀ p, p < 2 + (mx - mn) →
      b.radix_table.get? p = some (if p ≤ b.prev_pfx
        then b.spline_points.countP (fun d => decide (d.x < mn + p))
        else 0)) :
    (b.add_key_to_spline c).prev_pfx = c.x - mn
    ∧ ∀ p, p < 2 + (mx - mn) →
        (b.add_key_to_spline c).radix_table.get? p
          = some (if p ≤ c.x - mn
              then (b.spline_points ++ [c]).countP (fun d => decide (d.x < mn + p))
              else 0) := by
  have hcurr : (c.x - b.min) >>> b.shift_bits = c.x - mn := by
    rw [hmin, hsh, Nat.shiftRight_zero]
  have hple : b.prev_pfx ≤ c.x - mn := by omega
  constructor
  · rw [Builder.add_key_prev_pfx, hcurr]
    split <;> omega
  · intro p hp
    rw [Builder.add_key_radix_table, hcurr]
    have hcount : ∀ q : ℕ, (b.spline_points ++ [c]).countP (fun d => decide (d.x < q))
        = b.spline_points.countP (fun d => decide (d.x < q))
          + (if c.x < q then 1 else 0) := by
      intro q
      rw [List.countP_append]
      simp [List.countP_cons]
    split
    · rename_i hne
      have hlt : b.prev_pfx < c.x - mn := by omega
      rw [listSetRange_get?, hrt p hp]
      simp only [Option.map_some', List.length_append, List.length_cons,
        List.length_nil]
      have hlen : b.spline_points.length + 1 - 1 = b.spline_points.length := by omega
      by_cases h1 : p ≤ b.prev_pfx
      · -- untouched low entries
        have hnr : ¬ (b.prev_pfx + 1 ≤ p ∧ p ≤ c.x - mn) := by omega
        have hno : ¬ (c.x < mn + p) := by omega
        simp only [if_neg hnr, if_pos h1, if_pos (show p ≤ c.x - mn from by omega),
          hcount, if_neg hno]
        try simp only [Option.some.injEq]
        omega
      · by_cases h2 : p ≤ c.x - mn
        · -- freshly filled entries
          rw [if_pos (by omega : b.prev_pfx + 1 ≤ p ∧ p ≤ c.x - mn), if_pos h2, hcount]
          have hcnt : b.spline_points.countP (fun d => decide (d.x < mn + p))
              = b.spline_points.length := by
            rw [List.countP_eq_length]
            intro d hd
            have := hd_le d hd
            simp only [decide_eq_true_eq]
            omega
          have hno : ¬ (c.x < mn + p) := by omega
          rw [if_neg hno, hcnt]
          try simp only [Option.some.injEq]
          omega
        · -- beyond the new prefix: still zero
          have : ¬ (b.prev_pfx + 1 ≤ p ∧ p ≤ c.x - mn) := by omega
          rw [if_neg this, if_neg h1, if_neg h2]
    · rename_i heq
      have heq' : c.x - mn = b.prev_pfx := by omega
      rw [hrt p hp, heq']
      by_cases h1 : p ≤ b.prev_pfx
      · have hno : ¬ (c.x < mn + p) := by omega
        simp only [if_pos h1, hcount, if_neg hno]
        try simp only [Option.some.injEq]
        omega
      · simp only [if_neg h1]

/-! ### The structural invariant of a feeding builder -/

theorem newBuilder_eq (mn mx : ℕ) (E : ℚ) (hmn : mn ≤ mx) :
    newBuilder mn mx E = { Builder.mk0 mn mx with max_error := E } := by
  unfold newBuilder Builder.new Builder.with_error
  rw [if_neg (by omega : ¬ mn > mx)]
  rfl

/-- The first push establishes the invariant. -/
theorem bstate_first (mn mx : ℕ) (E : ℚ) (k : ℕ) (hmn : mn ≤ mx)
    (hk1 : mn ≤ k) (hk2 : k ≤ mx) :
    BState mn mx E [k] ((newBuilder mn mx E).push k) := by
  rw [newBuilder_eq mn mx E hmn, Builder.push_eq]
  have h0 : ({ Builder.mk0 mn mx with max_error := E } : Builder).num_points = 0 := rfl
  rw [Builder.insert_first _ _ _ h0]
  simp only [if_pos h0]
  have hsh0 : shiftBitsOf (mx - mn) RADIX_BITS = 0 := shiftBitsOf_eq_zero _
  have hspec := add_key_table_spec
    { Builder.mk0 mn mx with max_error := E, distinct := 1 } ⟨k, 0⟩ mn mx
    rfl (by simp [Builder.mk0, hsh0]) (by simp [Builder.mk0, hsh0])
    (by intro d hd; simp [Builder.mk0] at hd)
    (by simpa using hk1) (by simp [Builder.mk0]; omega)
    (by
      intro p hp
      have : ({ Builder.mk0 mn mx with max_error := E, distinct := 1 } :
          Builder).radix_table = List.replicate (2 + (mx - mn)) 0 := by
        simp [Builder.mk0, hsh0]
      rw [this, replicate_get?, if_pos hp]
      simp [Builder.mk0])
  obtain ⟨hpfx1, hrt1⟩ := hspec
  simp only [Builder.mk0] at hpfx1 hrt1
  refine ⟨by simp, ?_, ?_, ?_, ?_, ?_, ?_, ?_, ?_, ?_, ?_, ?_, ?_, ?_, ?_, ?_, ?_, ?_, ?_,
    ?_, ?_⟩
  · simp [Builder.mk0, hsh0]
  · simp [Builder.mk0, hsh0]
  · simp [Builder.mk0, hsh0]
  · simp [Builder.mk0, hsh0]
  · simp [Builder.mk0, hsh0]
  · simp [Builder.mk0, hsh0]
  · simp [Builder.mk0, hsh0]
  · simp [Builder.mk0, hsh0, hk1]
  · simp [Builder.mk0, hsh0, hk2]
  · simp [Builder.mk0, hsh0]
  · simp [Builder.mk0, hsh0, List.chain'_singleton]
  · intro c hc
    simp only [Builder.mk0, Builder.add_key_spline_points] at hc
    simp at hc
    subst hc
    simp [Builder.mk0, hk1]
  · simp [Builder.mk0, hsh0]
  · simp [Builder.mk0, hsh0]
  · simp [Builder.mk0, hsh0]
  · intro _
    simp [Builder.mk0, hsh0]
  · intro h2
    simp [Builder.mk0] at h2
  · simp [Builder.mk0, hpfx1]
  · simp [Builder.mk0, hsh0]
  · intro p hp
    have h2 := hrt1 p hp
    simp only [Builder.mk0] at h2 ⊢
    simpa [hpfx1] using h2

theorem getLastD_mem : ∀ (l : List Coordinate) (d : Coordinate), l ≠ [] → l.getLastD d ∈ l
  | [], _, h => absurd rfl h
  | a :: t, d, _ => by
      cases t with
      | nil => simp
      | cons e t' =>
          have hm := getLastD_mem (e :: t') a (by simp)
          exact List.mem_cons_of_mem _ hm

theorem getLastD_concat_mem (l : List Coordinate) (c d : Coordinate) :
    (l ++ [c]).getLastD d = c :=
  List.getLastD_concat _ _ _

theorem chain'_concat_of : ∀ (l : List Coordinate) (c : Coordinate),
    l.Chain' knotLt → (l ≠ [] → knotLt (l.getLastD default) c) →
    (l ++ [c]).Chain' knotLt
  | [], c, _, _ => List.chain'_singleton c
  | [a], c, _, h2 => by
      simp only [List.cons_append, List.nil_append]
      exact List.chain'_cons.mpr ⟨h2 (by simp), List.chain'_singleton c⟩
  | a :: e :: t, c, h1, h2 => by
      rcases List.chain'_cons.mp h1 with ⟨hae, ht⟩
      have ih := chain'_concat_of (e :: t) c ht (fun _ => h2 (by simp))
      simp only [List.cons_append] at ih ⊢
      exact List.chain'_cons.mpr ⟨hae, ih⟩

/-- One `push` preserves the structural invariant. -/
theorem bstate_push (mn mx : ℕ) (E : ℚ) (ks : List ℕ) (b : Builder) (k : ℕ)
    (S : BState mn mx E ks b) (hk1 : b.prev_x ≤ k) (hk2 : k ≤ mx) :
    BState mn mx E (ks ++ [k]) (b.push k) := by
  have hn0 : b.num_points ≠ 0 := by
    rw [S.hnum]
    simpa using S.hne
  have hkne' : ks ++ [k] ≠ [] := by simp
  have hgl : (ks ++ [k]).getLastD 0 = k := List.getLastD_concat _ _ _
  have hmnk : mn ≤ k := le_trans S.hmnprevx hk1
  have hlen1 : 1 ≤ ks.length := by
    have := S.hne
    cases ks with
    | nil => exact absurd rfl this
    | cons a t => simp
  have hy' : b.prev_y + 1 = ((ks ++ [k]).length : ℚ) - 1 := by
    rw [S.hprevy, List.length_append, List.length_singleton]
    push_cast
    ring
  have hy0 : (0 : ℚ) ≤ b.prev_y := by
    rw [S.hprevy]
    have : (1 : ℚ) ≤ (ks.length : ℚ) := by exact_mod_cast hlen1
    linarith
  rw [Builder.push_eq]
  simp only [if_neg hn0]
  by_cases hdup : k = b.prev_x
  · rw [Builder.insert_dup b k _ hn0 hdup]
    refine ⟨hkne', by simpa using S.hmin, by simpa using S.hmax, by simpa using S.hsh,
      by simpa using S.herr, ?_, by simpa [hgl], by simpa using hy', by simpa using hmnk,
      by simpa using hk2, by simpa using S.hspne, by simpa using S.hchain, ?_,
      by simp [S.hppx, hdup], ?_, by simpa using S.hdist, ?_, ?_, by simpa using S.hpfx,
      by simpa using S.hrtlen, ?_⟩
    · rw [S.hnum]
      simp
    · intro c hc
      have hc' : c ∈ b.spline_points := hc
      obtain ⟨hb1, hb2, hb3, hb4⟩ := S.hknot c hc'
      refine ⟨hb1, ?_, hb3, ?_⟩
      · show c.x ≤ k
        omega
      · show c.y ≤ b.prev_y + 1
        linarith
    · refine ⟨S.hppy.1, ?_⟩
      show b.prev_point.y ≤ b.prev_y + 1
      linarith [S.hppy.2]
    · intro h1
      simpa using S.hsingle h1
    · intro h2
      simpa using S.hmulti h2
    · intro p hp
      simpa using S.hrt p hp
  · have hxne : k ≠ b.prev_x := hdup
    have hxlt : b.prev_x < k := lt_of_le_of_ne hk1 (Ne.symm hdup)
    by_cases hd2 : b.distinct + 1 = 2
    · rw [Builder.insert_second b k _ hn0 hxne hd2]
      have hd1 : b.distinct = 1 := by omega
      have hsp : b.spline_points = [b.prev_point] := S.hsingle hd1
      refine ⟨hkne', by simpa using S.hmin, by simpa using S.hmax, by simpa using S.hsh,
        by simpa using S.herr, ?_, by simpa [hgl], by simpa using hy', by simpa using hmnk,
        by simpa using hk2, by simpa using S.hspne, by simpa using S.hchain, ?_,
        by simp, ?_, by simp, ?_, ?_, by simpa using S.hpfx,
        by simpa using S.hrtlen, ?_⟩
      · rw [S.hnum]
        simp
      · intro c hc
        have hc' : c ∈ b.spline_points := hc
        obtain ⟨hb1, hb2, hb3, hb4⟩ := S.hknot c hc'
        refine ⟨hb1, ?_, hb3, ?_⟩
        · show c.x ≤ k
          omega
        · show c.y ≤ b.prev_y + 1
          linarith
      · constructor
        · show (0 : ℚ) ≤ b.prev_y + 1
          linarith
        · show b.prev_y + 1 ≤ b.prev_y + 1
          exact le_refl _
      · intro h1
        have h1' : b.distinct + 1 = 1 := h1
        omega
      · intro _
        show knotLt (b.spline_points.getLastD default) ⟨k, b.prev_y + 1⟩
        rw [hsp]
        refine ⟨?_, ?_⟩
        · show b.prev_point.x < k
          rw [S.hppx]
          exact hxlt
        · show b.prev_point.y < b.prev_y + 1
          linarith [S.hppy.2]
      · intro p hp
        simpa using S.hrt p hp
    · -- a third or later distinct key
      have hdge2 : 2 ≤ b.distinct := by
        have := S.hdist
        omega
      have hmul := S.hmulti hdge2
      have hlastmem : b.spline_points.getLastD default ∈ b.spline_points :=
        getLastD_mem _ _ S.hspne
      obtain ⟨hL1, hL2, hL3, hL4⟩ := S.hknot _ hlastmem
      have hLx : mn + b.prev_pfx = (b.spline_points.getLastD default).x := by
        rw [S.hpfx]
        omega
      have hppb := Builder.insert_big_prev_point b k (b.prev_y + 1) hn0 hxne hd2
      have hdistb := Builder.insert_big_distinct b k (b.prev_y + 1) hn0 hxne hd2
      have hsp' := Builder.insert_big_spline_points b k (b.prev_y + 1) hn0 hxne hd2
      have hrtb := Builder.insert_big_radix_table b k (b.prev_y + 1) hn0 hxne hd2
      have hpfb := Builder.insert_big_prev_pfx b k (b.prev_y + 1) hn0 hxne hd2
      by_cases hc : Builder.collapses b k (b.prev_y + 1) (b.spline_points.getLastD default)
      · rw [if_pos hc] at hsp' hrtb hpfb
        have hspec := add_key_table_spec { b with distinct := b.distinct + 1 }
          b.prev_point mn mx (by simpa using S.hmin) (by simpa using S.hsh)
          (by simpa using S.hrtlen)
          (by
            intro d hd
            have hd' : d ∈ b.spline_points := hd
            have := chain_le_last _ S.hchain d hd'
            show d.x ≤ mn + b.prev_pfx
            omega)
          (by
            show mn ≤ b.prev_point.x
            rw [S.hppx]
            exact S.hmnprevx)
          (by
            show mn + b.prev_pfx ≤ b.prev_point.x
            rw [hLx]
            exact le_of_lt hmul.1)
          (by
            intro p hp
            show b.radix_table.get? p = _
            have := S.hrt p hp
            simpa using this)
        dsimp only at hspec
        obtain ⟨hpfx2, hrt2⟩ := hspec
        refine ⟨hkne', by simpa using S.hmin, by simpa using S.hmax, by simpa using S.hsh,
          by simpa using S.herr, ?_, by simpa [hgl], by simpa using hy',
          by simpa using hmnk, by simpa using hk2, ?_, ?_, ?_, ?_, ?_, ?_, ?_, ?_, ?_,
          ?_, ?_⟩
        · rw [show ∀ m, m = (ks ++ [k]).length ↔ m = ks.length + 1 from by simp]
          show (b.insert k (b.prev_y + 1)).num_points + 1 = ks.length + 1
          rw [Builder.insert_num_points, S.hnum]
        · show (b.insert k (b.prev_y + 1)).spline_points ≠ []
          rw [hsp']
          simp
        · show ((b.insert k (b.prev_y + 1)).spline_points).Chain' knotLt
          rw [hsp']
          exact chain'_concat_of _ _ S.hchain (fun _ => hmul)
        · intro c hc1
          have hc2 : c ∈ (b.insert k (b.prev_y + 1)).spline_points := hc1
          rw [hsp'] at hc2
          rcases List.mem_append.mp hc2 with hold | hnew
          · obtain ⟨hb1, hb2, hb3, hb4⟩ := S.hknot c hold
            refine ⟨hb1, ?_, hb3, ?_⟩
            · show c.x ≤ k
              omega
            · show c.y ≤ b.prev_y + 1
              linarith
          · have hcp : c = b.prev_point := by simpa using hnew
            subst hcp
            refine ⟨?_, ?_, S.hppy.1, ?_⟩
            · show mn ≤ b.prev_point.x
              rw [S.hppx]
              exact S.hmnprevx
            · show b.prev_point.x ≤ k
              rw [S.hppx]
              omega
            · show b.prev_point.y ≤ b.prev_y + 1
              linarith [S.hppy.2]
        · show (b.insert k (b.prev_y + 1)).prev_point.x = k
          rw [hppb]
        · constructor
          · show (0 : ℚ) ≤ ((b.insert k (b.prev_y + 1)).prev_point).y
            rw [hppb]
            show (0 : ℚ) ≤ b.prev_y + 1
            linarith
          · show ((b.insert k (b.prev_y + 1)).prev_point).y ≤ b.prev_y + 1
            rw [hppb]
        · show 1 ≤ (b.insert k (b.prev_y + 1)).distinct
          rw [hdistb]
          omega
        · intro h1
          have h1' : (b.insert k (b.prev_y + 1)).distinct = 1 := h1
          rw [hdistb] at h1'
          omega
        · intro _
          show knotLt ((b.insert k (b.prev_y + 1)).spline_points.getLastD default)
            ((b.insert k (b.prev_y + 1)).prev_point)
          rw [hsp', hppb, getLastD_concat_mem]
          refine ⟨?_, ?_⟩
          · show b.prev_point.x < k
            rw [S.hppx]
            exact hxlt
          · show b.prev_point.y < b.prev_y + 1
            linarith [S.hppy.2]
        · show (b.insert k (b.prev_y + 1)).prev_pfx
            = ((b.insert k (b.prev_y + 1)).spline_points.getLastD default).x - mn
          rw [hpfb, hsp', getLastD_concat_mem, hpfx2]
        · show (b.insert k (b.prev_y + 1)).radix_table.length = 2 + (mx - mn)
          rw [Builder.insert_radix_table_length, S.hrtlen]
        · intro p hp
          show (b.insert k (b.prev_y + 1)).radix_table.get? p = some _
          rw [hrtb]
          rw [hrt2 p hp]
          congr 1
          rw [show (b.insert k (b.prev_y + 1)).prev_pfx = b.prev_point.x - mn from by
            rw [hpfb, hpfx2]]
          rw [hsp']
      · rw [if_neg hc] at hsp' hrtb hpfb
        refine ⟨hkne', by simpa using S.hmin, by simpa using S.hmax, by simpa using S.hsh,
          by simpa using S.herr, ?_, by simpa [hgl], by simpa using hy',
          by simpa using hmnk, by simpa using hk2, ?_, ?_, ?_, ?_, ?_, ?_, ?_, ?_, ?_,
          ?_, ?_⟩
        · rw [show ∀ m, m = (ks ++ [k]).length ↔ m = ks.length + 1 from by simp]
          show (b.insert k (b.prev_y + 1)).num_points + 1 = ks.length + 1
          rw [Builder.insert_num_points, S.hnum]
        · show (b.insert k (b.prev_y + 1)).spline_points ≠ []
          rw [hsp']
          exact S.hspne
        · show ((b.insert k (b.prev_y + 1)).spline_points).Chain' knotLt
          rw [hsp']
          exact S.hchain
        · intro c hc1
          have hc2 : c ∈ (b.insert k (b.prev_y + 1)).spline_points := hc1
          rw [hsp'] at hc2
          obtain ⟨hb1, hb2, hb3, hb4⟩ := S.hknot c hc2
          refine ⟨hb1, ?_, hb3, ?_⟩
          · show c.x ≤ k
            omega
          · show c.y ≤ b.prev_y + 1
            linarith
        · show (b.insert k (b.prev_y + 1)).prev_point.x = k
          rw [hppb]
        · constructor
          · show (0 : ℚ) ≤ ((b.insert k (b.prev_y + 1)).prev_point).y
            rw [hppb]
            show (0 : ℚ) ≤ b.prev_y + 1
            linarith
          · show ((b.insert k (b.prev_y + 1)).prev_point).y ≤ b.prev_y + 1
            rw [hppb]
        · show 1 ≤ (b.insert k (b.prev_y + 1)).distinct
          rw [hdistb]
          omega
        · intro h1
          have h1' : (b.insert k (b.prev_y + 1)).distinct = 1 := h1
          rw [hdistb] at h1'
          omega
        · intro _
          show knotLt ((b.insert k (b.prev_y + 1)).spline_points.getLastD default)
            ((b.insert k (b.prev_y + 1)).prev_point)
          rw [hsp', hppb]
          refine ⟨?_, ?_⟩
          · show (b.spline_points.getLastD default).x < k
            have h1 := hmul.1
            have h2 := S.hppx
            omega
          · show (b.spline_points.getLastD default).y < b.prev_y + 1
            have h1 := hmul.2
            linarith [S.hppy.2]
        · show (b.insert k (b.prev_y + 1)).prev_pfx
            = ((b.insert k (b.prev_y + 1)).spline_points.getLastD default).x - mn
          rw [hpfb, hsp']
          exact S.hpfx
        · show (b.insert k (b.prev_y + 1)).radix_table.length = 2 + (mx - mn)
          rw [Builder.insert_radix_table_length, S.hrtlen]
        · intro p hp
          show (b.insert k (b.prev_y + 1)).radix_table.get? p = some _
          rw [hrtb]
          rw [S.hrt p hp]
          congr 1
          rw [show (b.insert k (b.prev_y + 1)).prev_pfx = b.prev_pfx from hpfb]
          rw [hsp']

theorem getLast?_eq_getLastD : ∀ (l : List ℕ) (d : ℕ), l ≠ [] →
    l.getLast? = some (l.getLastD d)
  | [], _, h => absurd rfl h
  | [_], _, _ => rfl
  | a :: e :: t, _, _ => by
      have ih := getLast?_eq_getLastD (e :: t) a (by simp)
      simpa using ih

theorem builderFed_concat (b : Builder) (ks : List ℕ) (k : ℕ) :
    builderFed b (ks ++ [k]) = (builderFed b ks).push k := by
  unfold builderFed
  rw [List.foldl_append]
  rfl

/-- Feeding a sorted, bounded, non-empty key list establishes the
structural invariant. -/
theorem bstate_fed (mn mx : ℕ) (E : ℚ) (hmn : mn ≤ mx) (ks : List ℕ) :
    ks ≠ [] → ks.Chain' (· ≤ ·) → (∀ j ∈ ks, mn ≤ j ∧ j ≤ mx) →
    BState mn mx E ks (builderFed (newBuilder mn mx E) ks) := by
  induction ks using List.reverseRecOn with
  | nil => intro h; exact absurd rfl h
  | append_singleton ks k ih =>
      intro _ hchain hbnd
      rw [builderFed_concat]
      rcases eq_or_ne ks [] with rfl | hne
      · have hb := hbnd k (by simp)
        exact bstate_first mn mx E k hmn hb.1 hb.2
      · have hchain' : ks.Chain' (· ≤ ·) := (List.chain'_append.mp hchain).1
        have hbnd' : ∀ j ∈ ks, mn ≤ j ∧ j ≤ mx := by
          intro j hj
          exact hbnd j (by simp [hj])
        have S := ih hne hchain' hbnd'
        have hlastle : ks.getLastD 0 ≤ k := by
          have h3 := (List.chain'_append.mp hchain).2.2
          have := h3 (ks.getLastD 0) (by rw [getLast?_eq_getLastD ks 0 hne]; simp)
            k (by simp)
          exact this
        have hk1 : (builderFed (newBuilder mn mx E) ks).prev_x ≤ k := by
          rw [S.hprevx]
          exact hlastle
        exact bstate_push mn mx E ks _ k S hk1 (hbnd k (by simp)).2

/-- The final back-fill of the radix table turns the conditional table
description into the unconditional count form. -/
theorem setFrom_table (rt : List ℕ) (sp : List Coordinate) (mn mx P : ℕ)
    (hlen : rt.length = 2 + (mx - mn)) (hP : P ≤ mx - mn)
    (hd_le : ∀ d ∈ sp, d.x ≤ mn + P)
    (hrt : ∀ p, p < 2 + (mx - mn) →
      rt.get? p = some (if p ≤ P then sp.countP (fun d => decide (d.x < mn + p)) else 0)) :
    ∀ p, p < 2 + (mx - mn) →
      (listSetFrom rt (Nat.min (P + 1) (rt.length - 1)) sp.length).get? p
        = some (sp.countP (fun d => decide (d.x < mn + p))) := by
  intro p hp
  rw [listSetFrom_get?, hrt p hp]
  have hstart : Nat.min (P + 1) (rt.length - 1) = P + 1 :=
    Nat.min_eq_left (by omega)
  rw [hstart]
  simp only [Option.map_some']
  by_cases h1 : p ≤ P
  · rw [if_neg (by omega : ¬ (P + 1 ≤ p)), if_pos h1]
  · have hcl : sp.countP (fun d => decide (d.x < mn + p)) = sp.length := by
      rw [List.countP_eq_length]
      intro d hd
      have := hd_le d hd
      simp only [decide_eq_true_eq]
      omega
    rw [if_pos (by omega : P + 1 ≤ p), hcl]

theorem build_const_fields (b : Builder) (h : b.num_points ≠ 0) :
    b.build.min = b.min ∧ b.build.max = b.max ∧ b.build.shift_bits = b.shift_bits
      ∧ b.build.max_error = b.max_error ∧ b.build.num_points = b.num_points := by
  unfold Builder.build
  rw [if_neg h]
  dsimp only
  split <;> simp

theorem build_spline_append (b : Builder) (h : b.num_points ≠ 0)
    (hx : (b.spline_points.getLastD default).x ≠ b.prev_x) :
    b.build.spline_points = b.spline_points ++ [⟨b.prev_x, b.prev_y⟩] := by
  unfold Builder.build
  rw [if_neg h]
  dsimp only
  rw [if_pos hx]
  simp

theorem build_spline_noappend (b : Builder) (h : b.num_points ≠ 0)
    (hx : ¬ ((b.spline_points.getLastD default).x ≠ b.prev_x)) :
    b.build.spline_points = b.spline_points := by
  unfold Builder.build
  rw [if_neg h]
  dsimp only
  rw [if_neg hx]

theorem build_radix_append (b : Builder) (h : b.num_points ≠ 0)
    (hx : (b.spline_points.getLastD default).x ≠ b.prev_x) :
    b.build.radix_table =
      listSetFrom (b.add_key_to_spline ⟨b.prev_x, b.prev_y⟩).radix_table
        (Nat.min ((b.add_key_to_spline ⟨b.prev_x, b.prev_y⟩).prev_pfx + 1)
          ((b.add_key_to_spline ⟨b.prev_x, b.prev_y⟩).radix_table.length - 1))
        ((b.add_key_to_spline ⟨b.prev_x, b.prev_y⟩).spline_points.length) := by
  unfold Builder.build
  rw [if_neg h]
  dsimp only
  rw [if_pos hx]

theorem build_radix_noappend (b : Builder) (h : b.num_points ≠ 0)
    (hx : ¬ ((b.spline_points.getLastD default).x ≠ b.prev_x)) :
    b.build.radix_table =
      listSetFrom b.radix_table (Nat.min (b.prev_pfx + 1) (b.radix_table.length - 1))
        b.spline_points.length := by
  unfold Builder.build
  rw [if_neg h]
  dsimp only
  rw [if_neg hx]

/-- `build` carries the feeding invariant to the built index. -/
theorem rsinv_build (mn mx : ℕ) (E : ℚ) (ks : List ℕ) (b : Builder)
    (S : BState mn mx E ks b) : RSInv mn mx E ks.length b.build := by
  have hn0 : b.num_points ≠ 0 := by
    rw [S.hnum]
    simpa using S.hne
  have hn1 : 1 ≤ ks.length := by
    have := S.hne
    cases ks with
    | nil => exact absurd rfl this
    | cons a t => simp
  obtain ⟨hbmin, hbmax, hbsh, hberr, hbnum⟩ := build_const_fields b hn0
  have hlastmem : b.spline_points.getLastD default ∈ b.spline_points :=
    getLastD_mem _ _ S.hspne
  obtain ⟨hL1, hL2, hL3, hL4⟩ := S.hknot _ hlastmem
  have hy0 : (0 : ℚ) ≤ b.prev_y := by
    rw [S.hprevy]
    have : (1 : ℚ) ≤ (ks.length : ℚ) := by exact_mod_cast hn1
    linarith
  by_cases hx : (b.spline_points.getLastD default).x ≠ b.prev_x
  · -- final knot appended
    have hd2 : 2 ≤ b.distinct := by
      by_contra hcon
      have hd1 : b.distinct = 1 := by
        have := S.hdist
        omega
      have hsp := S.hsingle hd1
      apply hx
      rw [hsp]
      exact S.hppx
    have hmul := S.hmulti hd2
    have hxlt : (b.spline_points.getLastD default).x < b.prev_x := by
      have h1 := hmul.1
      have h2 := S.hppx
      omega
    have hlylt : (b.spline_points.getLastD default).y < b.prev_y := by
      have h1 := hmul.2
      have h2 := S.hppy.2
      linarith
    have hspl := build_spline_append b hn0 hx
    have hrta := build_radix_append b hn0 hx
    have hspec := add_key_table_spec b ⟨b.prev_x, b.prev_y⟩ mn mx S.hmin S.hsh S.hrtlen
      (by
        intro d hd
        have := chain_le_last _ S.hchain d hd
        have := S.hpfx
        omega)
      (by simpa using S.hmnprevx)
      (by
        show mn + b.prev_pfx ≤ b.prev_x
        have := S.hpfx
        omega)
      S.hrt
    obtain ⟨hpfx2, hrt2⟩ := hspec
    have hfin := setFrom_table (b.add_key_to_spline ⟨b.prev_x, b.prev_y⟩).radix_table
      ((b.add_key_to_spline ⟨b.prev_x, b.prev_y⟩).spline_points) mn mx (b.prev_x - mn)
      (by rw [Builder.add_key_radix_table_length, S.hrtlen])
      (by
        have := S.hprevxmx
        omega)
      (by
        intro d hd
        rw [Builder.add_key_spline_points] at hd
        rcases List.mem_append.mp hd with hold | hnew
        · obtain ⟨hb1, hb2, hb3, hb4⟩ := S.hknot d hold
          have := S.hmnprevx
          omega
        · have hde : d = (⟨b.prev_x, b.prev_y⟩ : Coordinate) := by simpa using hnew
          subst hde
          show b.prev_x ≤ mn + (b.prev_x - mn)
          have := S.hmnprevx
          omega)
      (by
        intro p hp
        rw [hrt2 p hp, Builder.add_key_spline_points])
    refine ⟨hbmin.trans S.hmin, hbmax.trans S.hmax, hbsh.trans S.hsh, hberr.trans S.herr,
      hbnum.trans S.hnum, hn1, ?_, ?_, ?_, ?_, ?_⟩
    · rw [hspl]
      simp
    · rw [hspl]
      exact chain'_concat_of _ _ S.hchain (fun _ => ⟨hxlt, hlylt⟩)
    · intro c hc
      rw [hspl] at hc
      rcases List.mem_append.mp hc with hold | hnew
      · obtain ⟨hb1, hb2, hb3, hb4⟩ := S.hknot c hold
        refine ⟨hb1, hb3, ?_⟩
        rw [← S.hprevy]
        exact hb4
      · have hce : c = (⟨b.prev_x, b.prev_y⟩ : Coordinate) := by simpa using hnew
        subst hce
        refine ⟨by simpa using S.hmnprevx, hy0, ?_⟩
        show b.prev_y ≤ (ks.length : ℚ) - 1
        rw [S.hprevy]
    · rw [hrta, listSetFrom_length, Builder.add_key_radix_table_length, S.hrtlen]
    · intro p hp
      rw [hrta, hspl]
      have hmm : (b.add_key_to_spline ⟨b.prev_x, b.prev_y⟩).prev_pfx = b.prev_x - mn := hpfx2
      rw [hmm]
      have hfp := hfin p hp
      rw [Builder.add_key_spline_points] at hfp ⊢
      exact hfp
  · -- the last key is already the last knot
    have hspl := build_spline_noappend b hn0 hx
    have hrta := build_radix_noappend b hn0 hx
    have hfin := setFrom_table b.radix_table b.spline_points mn mx b.prev_pfx
      S.hrtlen
      (by
        have hpp := S.hpfx
        have := S.hprevxmx
        omega)
      (by
        intro d hd
        have := chain_le_last _ S.hchain d hd
        have := S.hpfx
        omega)
      S.hrt
    refine ⟨hbmin.trans S.hmin, hbmax.trans S.hmax, hbsh.trans S.hsh, hberr.trans S.herr,
      hbnum.trans S.hnum, hn1, ?_, ?_, ?_, ?_, ?_⟩
    · rw [hspl]
      exact S.hspne
    · rw [hspl]
      exact S.hchain
    · intro c hc
      rw [hspl] at hc
      obtain ⟨hb1, hb2, hb3, hb4⟩ := S.hknot c hc
      refine ⟨hb1, hb3, ?_⟩
      rw [← S.hprevy]
      exact hb4
    · rw [hrta, listSetFrom_length, S.hrtlen]
    · intro p hp
      rw [hrta, hspl]
      exact hfin p hp

theorem sorted_adj (sp : List Coordinate) (hP : sp.Pairwise knotLt) (i j : ℕ)
    (hij : i < j) (ci cj : Coordinate)
    (hi : sp.get? i = some ci) (hj : sp.get? j = some cj) : knotLt ci cj := by
  obtain ⟨hjl, hjg⟩ := List.get?_eq_some.mp hj
  obtain ⟨hil, hig⟩ := List.get?_eq_some.mp hi
  have h := List.pairwise_iff_get.mp hP ⟨i, hil⟩ ⟨j, hjl⟩ (Fin.mk_lt_mk.mpr hij)
  rw [hig, hjg] at h
  exact h

theorem sorted_y_mono (sp : List Coordinate) (hP : sp.Pairwise knotLt) (i j : ℕ)
    (hij : i ≤ j) (ci cj : Coordinate)
    (hi : sp.get? i = some ci) (hj : sp.get? j = some cj) :
    ci.x ≤ cj.x ∧ ci.y ≤ cj.y := by
  rcases eq_or_lt_of_le hij with rfl | hlt
  · rw [hi] at hj
    injection hj with h
    subst h
    exact ⟨le_refl _, le_refl _⟩
  · have h := sorted_adj sp hP i j hlt ci cj hi hj
    exact ⟨le_of_lt h.1, le_of_lt h.2⟩

theorem countP_lt_mono (sp : List Coordinate) (k1 k2 : ℕ) (h : k1 ≤ k2) :
    sp.countP (fun c => decide (c.x < k1)) ≤ sp.countP (fun c => decide (c.x < k2)) :=
  List.countP_mono_left (by
    intro c _ hc
    simp only [decide_eq_true_eq] at hc ⊢
    omega)

/-- Key characterization of the segment lookup on a structurally sound
index: for `mn ≤ key ≤ mx` the returned index is the number of knots with
`x < key` (with `shift_bits = 0` each radix bucket holds at most one knot,
so the lookup never reaches the binary branch). -/
theorem rsinv_spline_segment (mn mx : ℕ) (E : ℚ) (n : ℕ) (rs : RadixSpline)
    (I : RSInv mn mx E n rs) (key : ℕ) (h1 : mn ≤ key) (h2 : key ≤ mx) :
    rs.spline_segment key
      = some (rs.spline_points.countP (fun c => decide (c.x < key))) := by
  have hP : rs.spline_points.Pairwise knotLt := List.chain'_iff_pairwise.mp I.hchain
  have hg1 := I.hrt (key - mn) (by omega)
  have hg2 := I.hrt (key - mn + 1) (by omega)
  have hmn1 : mn + (key - mn) = key := by omega
  have hmn2 : mn + (key - mn + 1) = key + 1 := by omega
  rw [hmn1] at hg1
  rw [hmn2] at hg2
  have hBE : rs.spline_points.countP (fun c => decide (c.x < key))
      ≤ rs.spline_points.countP (fun c => decide (c.x < key + 1)) :=
    countP_lt_mono _ _ _ (by omega)
  have hlen : rs.spline_points.countP (fun c => decide (c.x < key + 1))
      ≤ rs.spline_points.length := List.countP_le_length _
  have hE1 : rs.spline_points.countP (fun c => decide (c.x < key + 1))
      ≤ rs.spline_points.countP (fun c => decide (c.x < key)) + 1 := by
    by_contra hcon
    push_neg at hcon
    have hb1 : rs.spline_points.countP (fun c => decide (c.x < key))
        < rs.spline_points.length := by omega
    have hb2 : rs.spline_points.countP (fun c => decide (c.x < key)) + 1
        < rs.spline_points.length := by omega
    have hc1 := List.get?_eq_get hb1
    have hc2 := List.get?_eq_get hb2
    have hk1 : ¬ (rs.spline_points.get ⟨_, hb1⟩).x < key := fun hlt =>
      absurd ((sorted_get_count _ hP key _ _ hc1).mp hlt) (by omega)
    have hk2 : (rs.spline_points.get ⟨_, hb2⟩).x < key + 1 :=
      (sorted_get_count _ hP (key + 1) _ _ hc2).mpr (by omega)
    have hadj := sorted_adj _ hP _ _ (by omega) _ _ hc1 hc2
    have hax := hadj.1
    omega
  unfold RadixSpline.spline_segment
  simp only [I.hmin, I.hsh, Nat.shiftRight_zero]
  rw [hg1, hg2]
  dsimp only
  by_cases hEB : rs.spline_points.countP (fun c => decide (c.x < key + 1))
      = rs.spline_points.countP (fun c => decide (c.x < key))
  · rw [if_pos hEB]
  · rw [if_neg hEB, if_pos ⟨hBE, by unfold LINEAR_THRESH; omega⟩]
    unfold RadixSpline.linearBranch
    rw [if_pos ⟨hBE, hlen⟩]
    have hb1 : rs.spline_points.countP (fun c => decide (c.x < key))
        < rs.spline_points.length := by omega
    have hc1 := List.get?_eq_get hb1
    have hkx : key ≤ (rs.spline_points.get ⟨_, hb1⟩).x := by
      by_contra hcon
      push_neg at hcon
      have := (sorted_get_count _ hP key _ _ hc1).mp hcon
      omega
    have hEB' : rs.spline_points.countP (fun c => decide (c.x < key + 1))
        - rs.spline_points.countP (fun c => decide (c.x < key)) = 1 := by omega
    rw [hEB', List.drop_eq_get_cons hb1]
    have htake : ((rs.spline_points.get ⟨_, hb1⟩)
          :: rs.spline_points.drop (rs.spline_points.countP (fun c => decide (c.x < key)) + 1)).take 1
        = [rs.spline_points.get ⟨_, hb1⟩] := rfl
    rw [htake]
    have hpc : decide (key ≤ (rs.spline_points.get ⟨_, hb1⟩).x) = true := by
      simp only [decide_eq_true_eq]
      exact hkx
    simp [hpc]
    exact hkx

/-- Case analysis of `get_estimated_position` strictly inside `(min, max)`:
segment index `0` yields the estimate `0`, an interior segment index yields
the interpolation between the two enclosing knots, and a segment index equal
to the knot count makes the source panic (out-of-bounds access). -/
theorem rsinv_est_cases (mn mx : ℕ) (E : ℚ) (n : ℕ) (rs : RadixSpline)
    (I : RSInv mn mx E n rs) (key : ℕ) (h1 : mn < key) (h2 : key < mx) :
    (rs.spline_points.countP (fun c => decide (c.x < key)) = 0 →
        rs.get_estimated_position key = some 0)
    ∧ (0 < rs.spline_points.countP (fun c => decide (c.x < key)) →
        rs.spline_points.countP (fun c => decide (c.x < key)) < rs.spline_points.length →
        ∃ l r,
          rs.spline_points.get? (rs.spline_points.countP (fun c => decide (c.x < key)) - 1) = some l
          ∧ rs.spline_points.get? (rs.spline_points.countP (fun c => decide (c.x < key))) = some r
          ∧ l.x < key ∧ key ≤ r.x
          ∧ rs.get_estimated_position key
              = some ((r.y - l.y) / ((r.x - l.x : ℕ) : ℚ) * ((key - l.x : ℕ) : ℚ) + l.y))
    ∧ (rs.spline_points.countP (fun c => decide (c.x < key)) = rs.spline_points.length →
        rs.get_estimated_position key = none) := by
  have hP : rs.spline_points.Pairwise knotLt := List.chain'_iff_pairwise.mp I.hchain
  have hseg := rsinv_spline_segment mn mx E n rs I key (le_of_lt h1) (le_of_lt h2)
  have hnotmin : ¬ key ≤ rs.min := by rw [I.hmin]; omega
  have hnotmax : ¬ key ≥ rs.max := by rw [I.hmax]; omega
  have hlen0 : 0 < rs.spline_points.length := List.length_pos.mpr I.hspne
  refine ⟨?_, ?_, ?_⟩
  · intro h0
    unfold RadixSpline.get_estimated_position
    rw [if_neg hnotmin, if_neg hnotmax, hseg]
    dsimp only
    rw [if_pos h0]
  · intro hpos hlt
    obtain ⟨l, hlg⟩ : ∃ l, rs.spline_points.get?
        (rs.spline_points.countP (fun c => decide (c.x < key)) - 1) = some l :=
      ⟨_, List.get?_eq_get (by omega)⟩
    obtain ⟨r, hrg⟩ : ∃ r, rs.spline_points.get?
        (rs.spline_points.countP (fun c => decide (c.x < key))) = some r :=
      ⟨_, List.get?_eq_get hlt⟩
    have hlx : l.x < key := (sorted_get_count _ hP key _ _ hlg).mpr (by omega)
    have hrx : key ≤ r.x := by
      by_contra hcon
      push_neg at hcon
      have := (sorted_get_count _ hP key _ _ hrg).mp hcon
      omega
    refine ⟨l, r, hlg, hrg, hlx, hrx, ?_⟩
    unfold RadixSpline.get_estimated_position
    rw [if_neg hnotmin, if_neg hnotmax, hseg]
    dsimp only
    rw [if_neg (by omega : ¬ rs.spline_points.countP (fun c => decide (c.x < key)) = 0),
      hlg, hrg]
  · intro heq
    unfold RadixSpline.get_estimated_position
    rw [if_neg hnotmin, if_neg hnotmax, hseg]
    dsimp only
    rw [if_neg (by omega : ¬ rs.spline_points.countP (fun c => decide (c.x < key)) = 0)]
    have hnone : rs.spline_points.get?
        (rs.spline_points.countP (fun c => decide (c.x < key))) = none :=
      List.get?_eq_none.mpr (by omega)
    rw [hnone]
    rcases hg : rs.spline_points.get?
        (rs.spline_points.countP (fun c => decide (c.x < key)) - 1) with _ | l
    · rfl
    · rfl

theorem interp_nonneg_slope (l r : Coordinate) (hx : l.x < r.x) (hy : l.y ≤ r.y) :
    0 ≤ (r.y - l.y) / ((r.x - l.x : ℕ) : ℚ) := by
  have hd : (0 : ℚ) < ((r.x - l.x : ℕ) : ℚ) := by
    have h0 : 0 < r.x - l.x := by omega
    exact_mod_cast h0
  exact div_nonneg (by linarith) (le_of_lt hd)

theorem interp_bounds (l r : Coordinate) (key : ℕ) (hx : l.x < r.x) (hy : l.y ≤ r.y)
    (hk1 : l.x ≤ key) (hk2 : key ≤ r.x) :
    l.y ≤ (r.y - l.y) / ((r.x - l.x : ℕ) : ℚ) * ((key - l.x : ℕ) : ℚ) + l.y
    ∧ (r.y - l.y) / ((r.x - l.x : ℕ) : ℚ) * ((key - l.x : ℕ) : ℚ) + l.y ≤ r.y := by
  have hd : (0 : ℚ) < ((r.x - l.x : ℕ) : ℚ) := by
    have h0 : 0 < r.x - l.x := by omega
    exact_mod_cast h0
  have hs := interp_nonneg_slope l r hx hy
  have hc0 : (0 : ℚ) ≤ ((key - l.x : ℕ) : ℚ) := Nat.cast_nonneg _
  have hcd : ((key - l.x : ℕ) : ℚ) ≤ ((r.x - l.x : ℕ) : ℚ) := by
    have h0 : key - l.x ≤ r.x - l.x := by omega
    exact_mod_cast h0
  constructor
  · nlinarith [mul_nonneg hs hc0]
  · have hmul : (r.y - l.y) / ((r.x - l.x : ℕ) : ℚ) * ((key - l.x : ℕ) : ℚ)
        ≤ (r.y - l.y) / ((r.x - l.x : ℕ) : ℚ) * ((r.x - l.x : ℕ) : ℚ) :=
      mul_le_mul_of_nonneg_left hcd hs
    rw [div_mul_cancel₀ _ (ne_of_gt hd)] at hmul
    linarith

theorem interp_key_mono (l r : Coordinate) (k1 k2 : ℕ) (hx : l.x < r.x) (hy : l.y ≤ r.y)
    (h12 : k1 ≤ k2) :
    (r.y - l.y) / ((r.x - l.x : ℕ) : ℚ) * ((k1 - l.x : ℕ) : ℚ) + l.y
      ≤ (r.y - l.y) / ((r.x - l.x : ℕ) : ℚ) * ((k2 - l.x : ℕ) : ℚ) + l.y := by
  have hs := interp_nonneg_slope l r hx hy
  have hcd : ((k1 - l.x : ℕ) : ℚ) ≤ ((k2 - l.x : ℕ) : ℚ) := by
    have h0 : k1 - l.x ≤ k2 - l.x := by omega
    exact_mod_cast h0
  have := mul_le_mul_of_nonneg_left hcd hs
  linarith

/-- Every value the estimator returns lies inside `[0, n − 1]`. -/
theorem rsinv_est_bounds (mn mx : ℕ) (E : ℚ) (n : ℕ) (rs : RadixSpline)
    (I : RSInv mn mx E n rs) (key : ℕ) (e : ℚ)
    (h : rs.get_estimated_position key = some e) :
    0 ≤ e ∧ e ≤ (n : ℚ) - 1 := by
  have hP : rs.spline_points.Pairwise knotLt := List.chain'_iff_pairwise.mp I.hchain
  have hn1q : (1 : ℚ) ≤ (n : ℚ) := by exact_mod_cast I.hn1
  by_cases hm1 : key ≤ rs.min
  · unfold RadixSpline.get_estimated_position at h
    rw [if_pos hm1] at h
    injection h with h
    subst h
    constructor
    · linarith
    · linarith
  · by_cases hm2 : key ≥ rs.max
    · unfold RadixSpline.get_estimated_position at h
      rw [if_neg hm1, if_pos hm2, if_neg (by rw [I.hnum]; have := I.hn1; omega)] at h
      rw [I.hnum] at h
      injection h with h
      subst h
      constructor
      · linarith
      · linarith
    · have h1 : mn < key := by rw [I.hmin] at hm1; omega
      have h2 : key < mx := by rw [I.hmax] at hm2; omega
      obtain ⟨hz, hint, hnone⟩ := rsinv_est_cases mn mx E n rs I key h1 h2
      have hle := List.countP_le_length (l := rs.spline_points) (fun c => decide (c.x < key))
      rcases Nat.eq_zero_or_pos (rs.spline_points.countP (fun c => decide (c.x < key))) with h0 | hpos
      · rw [hz h0] at h
        injection h with h
        subst h
        constructor
        · linarith
        · linarith
      · rcases eq_or_lt_of_le hle with heq | hlt
        · rw [hnone heq] at h
          exact absurd h (by simp)
        · obtain ⟨l, r, hlg, hrg, hlx, hrx, hval⟩ := hint hpos hlt
          rw [hval] at h
          injection h with h
          subst h
          have hadj := sorted_adj _ hP _ _ (by omega) _ _ hlg hrg
          obtain ⟨hlm1, hlm2, hlm3⟩ := I.hknot l (List.get?_mem hlg)
          obtain ⟨hrm1, hrm2, hrm3⟩ := I.hknot r (List.get?_mem hrg)
          have hb := interp_bounds l r key hadj.1 (le_of_lt hadj.2) (le_of_lt hlx) hrx
          constructor
          · linarith [hb.1]
          · linarith [hb.2]

/-- The estimator is monotone on a structurally sound index, whenever it
returns at all. -/
theorem rsinv_est_mono (mn mx : ℕ) (E : ℚ) (n : ℕ) (rs : RadixSpline)
    (I : RSInv mn mx E n rs) (k1 k2 : ℕ) (h12 : k1 ≤ k2) (e1 e2 : ℚ)
    (h1 : rs.get_estimated_position k1 = some e1)
    (h2 : rs.get_estimated_position k2 = some e2) : e1 ≤ e2 := by
  have hP : rs.spline_points.Pairwise knotLt := List.chain'_iff_pairwise.mp I.hchain
  have hb1 := rsinv_est_bounds mn mx E n rs I k1 e1 h1
  have hb2 := rsinv_est_bounds mn mx E n rs I k2 e2 h2
  by_cases hm1 : k1 ≤ rs.min
  · unfold RadixSpline.get_estimated_position at h1
    rw [if_pos hm1] at h1
    injection h1 with h1
    subst h1
    exact hb2.1
  · by_cases hm2 : k2 ≥ rs.max
    · unfold RadixSpline.get_estimated_position at h2
      rw [if_neg (by omega : ¬ k2 ≤ rs.min), if_pos hm2,
        if_neg (by rw [I.hnum]; have := I.hn1; omega)] at h2
      rw [I.hnum] at h2
      injection h2 with h2
      subst h2
      exact hb1.2
    · have ha1 : mn < k1 := by rw [I.hmin] at hm1; omega
      have ha2 : k2 < mx := by rw [I.hmax] at hm2; omega
      obtain ⟨hz1, hint1, hnone1⟩ := rsinv_est_cases mn mx E n rs I k1 ha1 (by omega)
      obtain ⟨hz2, hint2, hnone2⟩ := rsinv_est_cases mn mx E n rs I k2 (by omega) ha2
      have hcm := countP_lt_mono rs.spline_points k1 k2 h12
      have hle1 := List.countP_le_length (l := rs.spline_points) (fun c => decide (c.x < k1))
      have hle2 := List.countP_le_length (l := rs.spline_points) (fun c => decide (c.x < k2))
      rcases Nat.eq_zero_or_pos (rs.spline_points.countP (fun c => decide (c.x < k1)))
        with h01 | hp1
      · rw [hz1 h01] at h1
        injection h1 with h1
        subst h1
        exact hb2.1
      · rcases eq_or_lt_of_le hle1 with he1 | hl1
        · rw [hnone1 he1] at h1
          exact absurd h1 (by simp)
        · obtain ⟨l1, r1, hlg1, hrg1, hlx1, hrx1, hval1⟩ := hint1 hp1 hl1
          rw [hval1] at h1
          injection h1 with h1
          subst h1
          have hp2 : 0 < rs.spline_points.countP (fun c => decide (c.x < k2)) := by omega
          rcases eq_or_lt_of_le hle2 with he2 | hl2
          · rw [hnone2 he2] at h2
            exact absurd h2 (by simp)
          · obtain ⟨l2, r2, hlg2, hrg2, hlx2, hrx2, hval2⟩ := hint2 hp2 hl2
            rw [hval2] at h2
            injection h2 with h2
            subst h2
            have hadj1 := sorted_adj _ hP _ _ (by omega) _ _ hlg1 hrg1
            have hadj2 := sorted_adj _ hP _ _ (by omega) _ _ hlg2 hrg2
            rcases eq_or_lt_of_le hcm with hsame | hdiff
            · have hll : l1 = l2 := by
                rw [hsame] at hlg1
                rw [hlg1] at hlg2
                injection hlg2
              have hrr : r1 = r2 := by
                rw [hsame] at hrg1
                rw [hrg1] at hrg2
                injection hrg2
              subst hll
              subst hrr
              exact interp_key_mono l1 r1 k1 k2 hadj1.1 (le_of_lt hadj1.2) h12
            · have hub := (interp_bounds l1 r1 k1 hadj1.1 (le_of_lt hadj1.2)
                (le_of_lt hlx1) hrx1).2
              have hlb := (interp_bounds l2 r2 k2 hadj2.1 (le_of_lt hadj2.2)
                (le_of_lt hlx2) hrx2).1
              have hmid := sorted_y_mono _ hP _ _ (by omega) _ _ hrg1 hlg2
              linarith [hmid.2]

/-- Every member of a non-decreasing key list lies between the list's head
and its last element. -/
theorem nat_chain_bounds :
    ∀ (ks : List ℕ), ks.Chain' (fun a b => a ≤ b) →
      ∀ j ∈ ks, ks.headD 0 ≤ j ∧ j ≤ ks.getLastD 0
  | [], _, j, hj => by simp at hj
  | [a], _, j, hj => by
      have hja : j = a := by simpa using hj
      subst hja
      simp
  | a :: b :: t, h, j, hj => by
      rcases List.chain'_cons.mp h with ⟨hab, ht⟩
      have hlast : (a :: b :: t).getLastD 0 = (b :: t).getLastD 0 := by
        rw [List.getLastD_cons 0 a (b :: t), List.getLastD_cons a b t,
          List.getLastD_cons 0 b t]
      rcases List.mem_cons.mp hj with hja | hjm
      · subst hja
        refine ⟨le_refl _, ?_⟩
        have hb := nat_chain_bounds (b :: t) ht b (by simp)
        rw [hlast]
        have hh : (b :: t).headD 0 = b := rfl
        rw [hh] at hb
        omega
      · have hb := nat_chain_bounds (b :: t) ht j hjm
        have hh : (b :: t).headD 0 = b := rfl
        rw [hh] at hb
        constructor
        · have : (a :: b :: t).headD 0 = a := rfl
          rw [this]
          omega
        · rw [hlast]
          exact hb.2

/-- C4 (corrected): on a structurally sound built index and a key strictly
inside `(min, max)`, `spline_segment` returns the number of knots with
`x < key`; this index is the smallest one whose knot has `x ≥ key` and it
equals the bucket begin whenever the bucket is empty.  The two scan
branches agree only up to the bucket's begin offset: when the scan of the
bucket slice locates position `i`, the linear branch returns the absolute
index `begin + i` while the binary branch returns the slice-relative `i`. -/
theorem c4_segment_spec (mn mx : ℕ) (E : ℚ) (n : ℕ) (rs : RadixSpline)
    (I : RSInv mn mx E n rs) (key : ℕ) (h1 : mn < key) (h2 : key < mx) :
    rs.spline_segment key = some (rs.spline_points.countP (fun c => decide (c.x < key)))
    ∧ (∀ j c, rs.spline_points.get? j = some c → key ≤ c.x →
        rs.spline_points.countP (fun c => decide (c.x < key)) ≤ j)
    ∧ (∀ c, rs.spline_points.get?
          (rs.spline_points.countP (fun c => decide (c.x < key))) = some c → key ≤ c.x)
    ∧ (∀ bg en, rs.radix_table.get? (key - mn) = some bg →
        rs.radix_table.get? (key - mn + 1) = some en → en = bg →
        rs.spline_segment key = some bg)
    ∧ (∀ bg en i, bg ≤ en → en ≤ rs.spline_points.length →
        ((rs.spline_points.drop bg).take (en - bg)).findIdx?
            (fun v => decide (key ≤ v.x)) = some i →
        RadixSpline.linearBranch rs.spline_points bg en key = some (bg + i)
          ∧ RadixSpline.binaryBranch rs.spline_points bg en key = some i) := by
  have hP : rs.spline_points.Pairwise knotLt := List.chain'_iff_pairwise.mp I.hchain
  have hseg := rsinv_spline_segment mn mx E n rs I key (by omega) (by omega)
  refine ⟨hseg, ?_, ?_, ?_, ?_⟩
  · intro j c hg hkc
    by_contra hcon
    push_neg at hcon
    have := (sorted_get_count _ hP key j c hg).mpr hcon
    omega
  · intro c hg
    by_contra hcon
    push_neg at hcon
    have := (sorted_get_count _ hP key _ c hg).mp hcon
    omega
  · intro bg en hbg hen hbe
    have hg1 := I.hrt (key - mn) (by omega)
    have hmn1 : mn + (key - mn) = key := by omega
    rw [hmn1] at hg1
    rw [hg1] at hbg
    injection hbg with hbg
    rw [hseg, hbg]
  · intro bg en i hbe hl hfi
    constructor
    · unfold RadixSpline.linearBranch
      rw [if_pos ⟨hbe, hl⟩, hfi]
      rfl
    · unfold RadixSpline.binaryBranch
      rw [if_pos ⟨hbe, hl⟩]
      simp only [hfi, Option.getD_some]

unseal Rat.add Rat.sub Rat.mul Rat.inv in
theorem c4_segment_spec_witness :
    (0 : ℕ) < 3 ∧ (3 : ℕ) < 5 ∧
    ((buildFed 0 5 1 [0, 2, 5]).spline_segment 3
        = some ((buildFed 0 5 1 [0, 2, 5]).spline_points.countP (fun c => decide (c.x < 3)))
    ∧ (∀ j c, (buildFed 0 5 1 [0, 2, 5]).spline_points.get? j = some c → 3 ≤ c.x →
        (buildFed 0 5 1 [0, 2, 5]).spline_points.countP (fun c => decide (c.x < 3)) ≤ j)
    ∧ (∀ c, (buildFed 0 5 1 [0, 2, 5]).spline_points.get?
          ((buildFed 0 5 1 [0, 2, 5]).spline_points.countP (fun c => decide (c.x < 3)))
          = some c → 3 ≤ c.x)
    ∧ (∀ bg en, (buildFed 0 5 1 [0, 2, 5]).radix_table.get? (3 - 0) = some bg →
        (buildFed 0 5 1 [0, 2, 5]).radix_table.get? (3 - 0 + 1) = some en → en = bg →
        (buildFed 0 5 1 [0, 2, 5]).spline_segment 3 = some bg)
    ∧ (∀ bg en i, bg ≤ en → en ≤ (buildFed 0 5 1 [0, 2, 5]).spline_points.length →
        (((buildFed 0 5 1 [0, 2, 5]).spline_points.drop bg).take (en - bg)).findIdx?
            (fun v => decide (3 ≤ v.x)) = some i →
        RadixSpline.linearBranch (buildFed 0 5 1 [0, 2, 5]).spline_points bg en 3 = some (bg + i)
          ∧ RadixSpline.binaryBranch (buildFed 0 5 1 [0, 2, 5]).spline_points bg en 3 = some i)) :=
  ⟨by decide, by decide,
    c4_segment_spec 0 5 1 3 _
      (rsinv_build 0 5 1 [0, 2, 5] _
        (bstate_fed 0 5 1 (by decide) [0, 2, 5] (by decide) (by simp [List.chain'_cons]) (by decide)))
      3 (by decide) (by decide)⟩

/-- C7: on every index built from a non-empty, non-decreasing key list over
its own endpoints, the position estimator is non-decreasing: whenever it
returns values at two keys `k1 ≤ k2`, the first value is at most the
second. -/
theorem c7_estimate_monotone (E : ℚ) (ks : List ℕ) (hne : ks ≠ [])
    (hchain : ks.Chain' (fun a b => a ≤ b)) (k1 k2 : ℕ) (h12 : k1 ≤ k2) (e1 e2 : ℚ)
    (h1 : (buildIndex E ks).get_estimated_position k1 = some e1)
    (h2 : (buildIndex E ks).get_estimated_position k2 = some e2) : e1 ≤ e2 := by
  have hbnd := nat_chain_bounds ks hchain
  have hmn : ks.headD 0 ≤ ks.getLastD 0 := by
    rcases ks with _ | ⟨a, t⟩
    · exact absurd rfl hne
    · exact (hbnd a (by simp)).2
  have S := bstate_fed (ks.headD 0) (ks.getLastD 0) E hmn ks hne hchain hbnd
  have I := rsinv_build _ _ _ _ _ S
  exact rsinv_est_mono _ _ _ _ _ I k1 k2 h12 e1 e2 h1 h2

unseal Rat.add Rat.sub Rat.mul Rat.inv in
theorem c7_estimate_monotone_witness :
    ([0, 2, 5] : List ℕ) ≠ [] ∧ ([0, 2, 5] : List ℕ).Chain' (fun a b => a ≤ b)
    ∧ (0 : ℕ) ≤ 5
    ∧ (buildIndex 1 [0, 2, 5]).get_estimated_position 0 = some 0
    ∧ (buildIndex 1 [0, 2, 5]).get_estimated_position 5 = some 2
    ∧ (0 : ℚ) ≤ 2 :=
  ⟨by decide, by simp [List.chain'_cons], by decide, by decide, by decide,
    c7_estimate_monotone 1 [0, 2, 5] (by decide) (by simp [List.chain'_cons]) 0 5 (by decide) 0 2
      (by decide) (by decide)⟩

/-- C8: feeding non-decreasing keys inside `[min, max]` keeps the knot list
strictly increasing in both components after every push (every prefix of
the feed) and after `build`; between adjacent knots of the built index the
interpolation denominator and the slope are strictly positive. -/
theorem c8_spline_monotone (mn mx : ℕ) (E : ℚ) (hmn : mn ≤ mx) (ks : List ℕ)
    (hne : ks ≠ []) (hchain : ks.Chain' (fun a b => a ≤ b))
    (hbnd : ∀ j ∈ ks, mn ≤ j ∧ j ≤ mx) :
    (∀ i, 0 < i →
        ((builderFed (newBuilder mn mx E) (ks.take i)).spline_points).Chain' knotLt)
    ∧ (buildFed mn mx E ks).spline_points.Chain' knotLt
    ∧ ∀ t l r, (buildFed mn mx E ks).spline_points.get? t = some l →
        (buildFed mn mx E ks).spline_points.get? (t + 1) = some r →
        l.x < r.x ∧ 0 < ((r.x - l.x : ℕ) : ℚ)
          ∧ 0 < (r.y - l.y) / ((r.x - l.x : ℕ) : ℚ) := by
  have S := bstate_fed mn mx E hmn ks hne hchain hbnd
  have I := rsinv_build mn mx E ks _ S
  refine ⟨?_, I.hchain, ?_⟩
  · intro i hi
    have hnei : ks.take i ≠ [] := by
      rcases ks with _ | ⟨a, t⟩
      · exact absurd rfl hne
      · rcases i with _ | i
        · omega
        · simp
    have hchi : (ks.take i).Chain' (fun a b => a ≤ b) := hchain.take i
    have hbndi : ∀ j ∈ ks.take i, mn ≤ j ∧ j ≤ mx := fun j hj =>
      hbnd j (List.take_subset i ks hj)
    exact (bstate_fed mn mx E hmn (ks.take i) hnei hchi hbndi).hchain
  · intro t l r hl hr
    have hP : (buildFed mn mx E ks).spline_points.Pairwise knotLt :=
      List.chain'_iff_pairwise.mp I.hchain
    have hadj := sorted_adj _ hP t (t + 1) (by omega) l r hl hr
    have hd : (0 : ℚ) < ((r.x - l.x : ℕ) : ℚ) := by
      have ha := hadj.1
      have h0 : 0 < r.x - l.x := by omega
      exact_mod_cast h0
    exact ⟨hadj.1, hd, div_pos (by linarith [hadj.2]) hd⟩

unseal Rat.add Rat.sub Rat.mul Rat.inv in
theorem c8_spline_monotone_witness :
    (0 : ℕ) ≤ 5 ∧ ([0, 2, 5] : List ℕ) ≠ []
    ∧ ([0, 2, 5] : List ℕ).Chain' (fun a b => a ≤ b)
    ∧ (∀ j ∈ ([0, 2, 5] : List ℕ), 0 ≤ j ∧ j ≤ 5)
    ∧ ((∀ i, 0 < i →
          ((builderFed (newBuilder 0 5 1) (([0, 2, 5] : List ℕ).take i)).spline_points).Chain' knotLt)
      ∧ (buildFed 0 5 1 [0, 2, 5]).spline_points.Chain' knotLt
      ∧ ∀ t l r, (buildFed 0 5 1 [0, 2, 5]).spline_points.get? t = some l →
          (buildFed 0 5 1 [0, 2, 5]).spline_points.get? (t + 1) = some r →
          l.x < r.x ∧ 0 < ((r.x - l.x : ℕ) : ℚ)
            ∧ 0 < (r.y - l.y) / ((r.x - l.x : ℕ) : ℚ)) :=
  ⟨by decide, by decide, by simp [List.chain'_cons], by decide,
    c8_spline_monotone 0 5 1 (by decide) [0, 2, 5] (by decide) (by simp [List.chain'_cons]) (by decide)⟩

/-! ### Tolerant-orientation algebra (towards the error envelope) -/

theorem PREC_pos : (0 : ℚ) < PREC := by norm_num [PREC]

theorem PREC_le_one : PREC ≤ 1 := by norm_num [PREC]

theorem orient_cw_iff (dx1 dy1 dx2 dy2 : ℚ) :
    orient dx1 dy1 dx2 dy2 = Orient.Clockwise ↔ PREC < dy1 * dx2 - dy2 * dx1 := by
  constructor
  · intro h
    simp only [orient] at h
    split_ifs at h with h1 h2
    exact h1
  · intro h
    simp only [orient]
    rw [if_pos h]

theorem orient_ccw_iff (dx1 dy1 dx2 dy2 : ℚ) :
    orient dx1 dy1 dx2 dy2 = Orient.Counterclockwise
      ↔ dy1 * dx2 - dy2 * dx1 < -PREC := by
  have hp := PREC_pos
  constructor
  · intro h
    simp only [orient] at h
    split_ifs at h with h1 h2
    exact h2
  · intro h
    simp only [orient]
    rw [if_neg (by linarith), if_pos h]

theorem slope_of_cross_le (dy1 dx1 dy2 dx2 P : ℚ) (h1 : 1 ≤ dx1) (h2 : 0 < dx2)
    (hc : dy1 * dx2 - dy2 * dx1 ≤ P) (hP : 0 ≤ P) :
    dy1 / dx1 ≤ (dy2 + P) / dx2 := by
  rw [div_le_div_iff (by linarith) h2]
  nlinarith [mul_nonneg hP (by linarith : (0 : ℚ) ≤ dx1 - 1)]

theorem slope_of_cross_ge (dy1 dx1 dy2 dx2 P : ℚ) (h1 : 1 ≤ dx1) (h2 : 0 < dx2)
    (hc : -P ≤ dy1 * dx2 - dy2 * dx1) (hP : 0 ≤ P) :
    (dy2 - P) / dx2 ≤ dy1 / dx1 := by
  rw [div_le_div_iff h2 (by linarith)]
  nlinarith [mul_nonneg hP (by linarith : (0 : ℚ) ≤ dx1 - 1)]

theorem slope_lt_of_cross (dy1 dx1 dy2 dx2 : ℚ) (h1 : 0 < dx1) (h2 : 0 < dx2)
    (hc : 0 < dy1 * dx2 - dy2 * dx1) :
    dy2 / dx2 < dy1 / dx1 := by
  rw [div_lt_div_iff h2 h1]
  linarith

theorem slope_gt_of_cross (dy1 dx1 dy2 dx2 : ℚ) (h1 : 0 < dx1) (h2 : 0 < dx2)
    (hc : dy1 * dx2 - dy2 * dx1 < 0) :
    dy1 / dx1 < dy2 / dx2 := by
  rw [div_lt_div_iff h1 h2]
  linarith

theorem schain_get_lt (ks : List ℕ) (hs : ks.Chain' (fun a b => a < b)) (i j : ℕ)
    (hij : i < j) (xi xj : ℕ) (hi : ks.get? i = some xi) (hj : ks.get? j = some xj) :
    xi < xj := by
  have hP : ks.Pairwise (fun a b => a < b) := List.chain'_iff_pairwise.mp hs
  obtain ⟨hjl, hjg⟩ := List.get?_eq_some.mp hj
  obtain ⟨hil, hig⟩ := List.get?_eq_some.mp hi
  have h := List.pairwise_iff_get.mp hP ⟨i, hil⟩ ⟨j, hjl⟩ (Fin.mk_lt_mk.mpr hij)
  rw [hig, hjg] at h
  exact h

theorem schain_get_inj (ks : List ℕ) (hs : ks.Chain' (fun a b => a < b)) (i j : ℕ)
    (v : ℕ) (hi : ks.get? i = some v) (hj : ks.get? j = some v) : i = j := by
  rcases Nat.lt_trichotomy i j with h | h | h
  · exact absurd (schain_get_lt ks hs i j h v v hi hj) (by omega)
  · exact h
  · exact absurd (schain_get_lt ks hs j i h v v hj hi) (by omega)

theorem get?_head (ks : List ℕ) (h : ks ≠ []) : ks.get? 0 = some (ks.headD 0) := by
  cases ks with
  | nil => exact absurd rfl h
  | cons a t => rfl

theorem get?_last (ks : List ℕ) (h : ks ≠ []) :
    ks.get? (ks.length - 1) = some (ks.getLastD 0) := by
  have h1 := getLast?_eq_getLastD ks 0 h
  rw [List.getLast?_eq_get?] at h1
  exact h1

theorem interpQ_left (l r : Coordinate) : interpQ l r l.x = l.y := by
  unfold interpQ
  simp

theorem interpQ_right (l r : Coordinate) (hx : l.x < r.x) : interpQ l r r.x = r.y := by
  unfold interpQ
  have hd : ((r.x - l.x : ℕ) : ℚ) ≠ 0 := by
    have h0 : 0 < r.x - l.x := by omega
    have : (0 : ℚ) < ((r.x - l.x : ℕ) : ℚ) := by exact_mod_cast h0
    exact ne_of_gt this
  rw [div_mul_cancel₀ _ hd]
  ring

theorem interp_le_of_slope_le (B P : Coordinate) (xi : ℕ) (A : ℚ)
    (hBi : B.x < xi)
    (hs : (P.y - B.y) / ((P.x - B.x : ℕ) : ℚ) ≤ (A - B.y) / ((xi - B.x : ℕ) : ℚ)) :
    interpQ B P xi ≤ A := by
  have hdi : (0 : ℚ) < ((xi - B.x : ℕ) : ℚ) := by
    have h0 : 0 < xi - B.x := by omega
    exact_mod_cast h0
  unfold interpQ
  have hm := mul_le_mul_of_nonneg_right hs (le_of_lt hdi)
  rw [div_mul_cancel₀ _ (ne_of_gt hdi)] at hm
  linarith

theorem interp_ge_of_slope_ge (B P : Coordinate) (xi : ℕ) (A : ℚ)
    (hBi : B.x < xi)
    (hs : (A - B.y) / ((xi - B.x : ℕ) : ℚ) ≤ (P.y - B.y) / ((P.x - B.x : ℕ) : ℚ)) :
    A ≤ interpQ B P xi := by
  have hdi : (0 : ℚ) < ((xi - B.x : ℕ) : ℚ) := by
    have h0 : 0 < xi - B.x := by omega
    exact_mod_cast h0
  unfold interpQ
  have hm := mul_le_mul_of_nonneg_right hs (le_of_lt hdi)
  rw [div_mul_cancel₀ _ (ne_of_gt hdi)] at hm
  linarith

namespace Builder

theorem push_spline_points (b : Builder) (x : ℕ) :
    (b.push x).spline_points
      = (b.insert x (if b.num_points = 0 then 0 else b.prev_y + 1)).spline_points := by
  rw [push_eq]

theorem push_prev_point (b : Builder) (x : ℕ) :
    (b.push x).prev_point
      = (b.insert x (if b.num_points = 0 then 0 else b.prev_y + 1)).prev_point := by
  rw [push_eq]

theorem push_upper_limit (b : Builder) (x : ℕ) :
    (b.push x).upper_limit
      = (b.insert x (if b.num_points = 0 then 0 else b.prev_y + 1)).upper_limit := by
  rw [push_eq]

theorem push_lower_limit (b : Builder) (x : ℕ) :
    (b.push x).lower_limit
      = (b.insert x (if b.num_points = 0 then 0 else b.prev_y + 1)).lower_limit := by
  rw [push_eq]

theorem push_distinct (b : Builder) (x : ℕ) :
    (b.push x).distinct
      = (b.insert x (if b.num_points = 0 then 0 else b.prev_y + 1)).distinct := by
  rw [push_eq]

end Builder

theorem cstate_first (mn mx : ℕ) (E : ℚ) (k : ℕ) (hmn : mn ≤ mx) (hE : 0 ≤ E)
    (hk1 : mn ≤ k) (hk2 : k ≤ mx) :
    CState mn mx E [k] ((newBuilder mn mx E).push k) := by
  have BS := bstate_first mn mx E k hmn hk1 hk2
  rw [newBuilder_eq mn mx E hmn] at BS ⊢
  have h0 : ({ Builder.mk0 mn mx with max_error := E } : Builder).num_points = 0 := rfl
  have hins := Builder.insert_first ({ Builder.mk0 mn mx with max_error := E }) k 0 h0
  have hy : (if ({ Builder.mk0 mn mx with max_error := E } : Builder).num_points = 0
      then (0 : ℚ)
      else ({ Builder.mk0 mn mx with max_error := E } : Builder).prev_y + 1) = 0 := by
    rw [if_pos h0]
  have hsp : (({ Builder.mk0 mn mx with max_error := E } : Builder).push k).spline_points
      = [⟨k, 0⟩] := by
    rw [Builder.push_spline_points, hy, hins]
    simp [Builder.mk0]
  have hpp : (({ Builder.mk0 mn mx with max_error := E } : Builder).push k).prev_point
      = ⟨k, 0⟩ := by
    rw [Builder.push_prev_point, hy, hins]
    simp
  have hd1 : (({ Builder.mk0 mn mx with max_error := E } : Builder).push k).distinct
      = 1 := by
    rw [Builder.push_distinct, hy, hins]
    simp [Builder.mk0]
  refine ⟨BS, hE, ?_, ?_, ?_, ?_, ?_, ?_, ?_, ?_, ?_, ?_⟩
  · rw [hd1]
    rfl
  · rw [hsp]
    rfl
  · intro c hc
    rw [hsp] at hc
    have hck : c = ⟨k, 0⟩ := by simpa using hc
    subst hck
    exact ⟨0, rfl, by norm_num⟩
  · rw [hpp]
    norm_num
  · intro j l r hl hr
    rw [hsp] at hr
    rcases j with _ | j <;> simp at hr
  · intro i xi hi hxi
    have hi0 : i = 0 := by
      rcases i with _ | i
      · rfl
      · simp at hi
    subst hi0
    have hxk : k = xi := by simpa using hi
    subst hxk
    rw [hsp, hpp]
    show |interpQ ⟨k, 0⟩ ⟨k, 0⟩ k - ((0 : ℕ) : ℚ)| ≤ E + PREC
    unfold interpQ
    simp
    linarith [PREC_pos]
  · intro h2
    rw [hd1] at h2
    exact absurd h2 (by omega)
  · intro h2
    rw [hd1] at h2
    exact absurd h2 (by omega)
  · intro h2
    rw [hd1] at h2
    exact absurd h2 (by omega)
  · intro h2
    rw [hd1] at h2
    exact absurd h2 (by omega)


theorem get?_lastD : ∀ (l : List Coordinate) (d : Coordinate), l ≠ [] →
    l.get? (l.length - 1) = some (l.getLastD d)
  | [], _, h => absurd rfl h
  | [_], _, _ => rfl
  | a :: e :: t, d, _ => by
      have ih := get?_lastD (e :: t) a (by simp)
      simpa using ih

theorem headD_concat (ks : List ℕ) (k d : ℕ) (h : ks ≠ []) :
    (ks ++ [k]).headD d = ks.headD d := by
  cases ks with
  | nil => exact absurd rfl h
  | cons a t => rfl

theorem cstate_push_second (mn mx : ℕ) (E : ℚ) (ks : List ℕ) (b : Builder) (k : ℕ)
    (S : CState mn mx E ks b) (hk1 : b.prev_x < k) (hk2 : k ≤ mx)
    (hlen : ks.length = 1) : CState mn mx E (ks ++ [k]) (b.push k) := by
  obtain ⟨BS, hE, hdisteq, hfirst, hknotrk, hprevpt, hseg, hpend, hUx, hLx, hup, hlo⟩ := S
  have BS' := bstate_push mn mx E ks b k BS (le_of_lt hk1) hk2
  have hn0 : b.num_points ≠ 0 := by
    rw [BS.hnum]
    simpa using BS.hne
  have hxne : k ≠ b.prev_x := by omega
  obtain ⟨a, rfl⟩ : ∃ a, ks = [a] := by
    rcases ks with _ | ⟨a, t⟩
    · exact absurd rfl BS.hne
    · rcases t with _ | ⟨e, t'⟩
      · exact ⟨a, rfl⟩
      · simp at hlen
  have hpa : b.prev_x = a := by
    rw [BS.hprevx]
    rfl
  have hak : a < k := by omega
  have hy : (if b.num_points = 0 then (0 : ℚ) else b.prev_y + 1) = (1 : ℚ) := by
    rw [if_neg hn0, BS.hprevy]
    norm_num
  have hpp : b.prev_point = ⟨a, 0⟩ := by
    rw [hprevpt]
    norm_num
  have hspl : b.spline_points = [⟨a, 0⟩] := by
    have h1 := BS.hsingle (by simpa using hdisteq)
    rw [h1, hpp]
  have hins := Builder.insert_second b k 1 hn0 hxne (by simpa using hdisteq)
  have hsp2 : (b.push k).spline_points = [⟨a, 0⟩] := by
    rw [Builder.push_spline_points, hy, hins]
    simp only [Builder.set_prev_cdf_spline_points, Builder.set_lower_limit_spline_points,
      Builder.set_upper_limit_spline_points]
    exact hspl
  have hpp2 : (b.push k).prev_point = ⟨k, 1⟩ := by
    rw [Builder.push_prev_point, hy, hins]
    simp only [Builder.set_prev_cdf_prev_point]
  have hd2 : (b.push k).distinct = 2 := by
    rw [Builder.push_distinct, hy, hins]
    simp only [Builder.set_prev_cdf_distinct, Builder.set_lower_limit_distinct,
      Builder.set_upper_limit_distinct]
    rw [hdisteq]
    rfl
  have hul2 : (b.push k).upper_limit = ⟨k, 1 + b.max_error⟩ := by
    rw [Builder.push_upper_limit, hy, hins]
    simp only [Builder.set_prev_cdf_upper_limit, Builder.set_lower_limit_upper_limit,
      Builder.set_upper_limit_upper_limit]
  have hll2 : (b.push k).lower_limit = ⟨k, Max.max (1 - b.max_error) 0⟩ := by
    rw [Builder.push_lower_limit, hy, hins]
    simp only [Builder.set_prev_cdf_lower_limit, Builder.set_lower_limit_lower_limit]
  have hbase2 : ((b.push k).spline_points.getLastD default) = ⟨a, 0⟩ := by
    rw [hsp2]
    rfl
  have hsplit : ∀ i xi, ([a] ++ [k]).get? i = some xi →
      (i = 0 ∧ a = xi) ∨ (i = 1 ∧ k = xi) := by
    intro i xi hi
    rcases i with _ | i
    · left
      refine ⟨rfl, ?_⟩
      have h : some a = some xi := hi
      injection h with h
    · rcases i with _ | i
      · right
        refine ⟨rfl, ?_⟩
        have h : some k = some xi := hi
        injection h with h
      · simp at hi
  have hdxq : (0 : ℚ) < ((k - a : ℕ) : ℚ) := by
    have h0 : 0 < k - a := by omega
    exact_mod_cast h0
  have hcast : ((k : ℚ) - (a : ℚ)) = ((k - a : ℕ) : ℚ) := by
    rw [Nat.cast_sub (le_of_lt hak)]
  refine ⟨BS', hE, ?_, ?_, ?_, ?_, ?_, ?_, ?_, ?_, ?_, ?_⟩
  · rw [hd2]
    rfl
  · rw [hsp2]
    rfl
  · intro c hc
    rw [hsp2] at hc
    have hca : c = ⟨a, 0⟩ := by simpa using hc
    subst hca
    exact ⟨0, rfl, by norm_num⟩
  · rw [hpp2]
    norm_num
  · intro j l r hl hr
    rw [hsp2] at hr
    rcases j with _ | j <;> simp at hr
  · intro i xi hi hxi
    rw [hbase2, hpp2]
    rcases hsplit i xi hi with ⟨rfl, rfl⟩ | ⟨rfl, rfl⟩
    · have h1 : interpQ ⟨a, 0⟩ ⟨k, 1⟩ a = (⟨a, 0⟩ : Coordinate).y := interpQ_left _ _
      rw [show ((⟨a, 0⟩ : Coordinate)).y = 0 from rfl] at h1
      rw [h1]
      simp only [Nat.cast_zero, sub_zero, abs_zero]
      linarith [PREC_pos]
    · have h1 : interpQ ⟨a, 0⟩ ⟨k, 1⟩ k = (⟨k, 1⟩ : Coordinate).y :=
        interpQ_right _ _ hak
      rw [show ((⟨k, 1⟩ : Coordinate)).y = 1 from rfl] at h1
      rw [h1]
      simp only [Nat.cast_one, sub_self, abs_zero]
      linarith [PREC_pos]
  · intro h2
    rw [hbase2, hul2]
    exact hak
  · intro h2
    rw [hbase2, hll2]
    exact hak
  · intro h2 i xi hi hxi
    rw [hbase2] at hxi
    rw [hbase2, hul2]
    rcases hsplit i xi hi with ⟨rfl, rfl⟩ | ⟨rfl, rfl⟩
    · exact absurd hxi (by exact lt_irrefl a)
    · show ((1 : ℚ) + b.max_error - 0) / ((k : ℚ) - (a : ℚ))
        ≤ (((1 : ℕ) : ℚ) + E - 0 + PREC) / ((k - a : ℕ) : ℚ)
      rw [hcast, BS.herr]
      have hnum : (1 : ℚ) + E - 0 ≤ ((1 : ℕ) : ℚ) + E - 0 + PREC := by
        push_cast
        linarith [PREC_pos]
      gcongr
  · intro h2 i xi hi hxi
    rw [hbase2] at hxi
    rw [hbase2, hll2]
    rcases hsplit i xi hi with ⟨rfl, rfl⟩ | ⟨rfl, rfl⟩
    · exact absurd hxi (by exact lt_irrefl a)
    · show (((1 : ℕ) : ℚ) - E - 0 - PREC) / ((k - a : ℕ) : ℚ)
        ≤ (Max.max (1 - b.max_error) 0 - 0) / ((k : ℚ) - (a : ℚ))
      rw [hcast, BS.herr]
      have hnum : ((1 : ℕ) : ℚ) - E - 0 - PREC ≤ Max.max (1 - E) 0 - 0 := by
        have hm := le_max_left (1 - E) (0 : ℚ)
        push_cast
        linarith [PREC_pos]
      gcongr

theorem cstate_push_big (mn mx : ℕ) (E : ℚ) (ks : List ℕ) (b : Builder) (k : ℕ)
    (S : CState mn mx E ks b) (hsorted : ks.Chain' (fun u v => u < v))
    (hk1 : b.prev_x < k) (hk2 : k ≤ mx)
    (hlen2 : 2 ≤ ks.length) : CState mn mx E (ks ++ [k]) (b.push k) := by
  obtain ⟨BS, hE, hdisteq, hfirst, hknotrk, hprevpt, hseg, hpend, hUx, hLx, hup, hlo⟩ := S
  have BS' := bstate_push mn mx E ks b k BS (le_of_lt hk1) hk2
  have hn0 : b.num_points ≠ 0 := by
    rw [BS.hnum]
    simpa using BS.hne
  have hxne : k ≠ b.prev_x := by omega
  have hdd : b.distinct + 1 ≠ 2 := by
    rw [hdisteq]
    omega
  have hd2 : 2 ≤ b.distinct := by
    rw [hdisteq]
    omega
  have hy : (if b.num_points = 0 then (0 : ℚ) else b.prev_y + 1)
      = ((ks.length : ℕ) : ℚ) := by
    rw [if_neg hn0, BS.hprevy]
    ring
  set B := b.spline_points.getLastD default with hB
  have hBmem : B ∈ b.spline_points := getLastD_mem _ _ BS.hspne
  obtain ⟨qB, hqBg, hqBy⟩ := hknotrk B hBmem
  have hmul := BS.hmulti hd2
  have hBpx : B.x < b.prev_x := by
    have h1 := hmul.1
    rw [BS.hppx] at h1
    exact h1
  have hBk : B.x < k := by omega
  have hchle : ks.Chain' (fun u v => u ≤ v) := List.Chain'.imp (fun u v h => le_of_lt h) hsorted
  have hble : ∀ i xi, ks.get? i = some xi → xi ≤ b.prev_x := by
    intro i xi hi
    rw [BS.hprevx]
    exact (nat_chain_bounds ks hchle xi (List.get?_mem hi)).2
  have hget_new : (ks ++ [k]).get? ks.length = some k := List.get?_concat_length _ _
  have hsplit : ∀ i xi, (ks ++ [k]).get? i = some xi →
      (ks.get? i = some xi) ∨ (i = ks.length ∧ k = xi) := by
    intro i xi hi
    rcases Nat.lt_trichotomy i ks.length with h | h | h
    · left
      rw [List.get?_append h] at hi
      exact hi
    · right
      subst h
      rw [hget_new] at hi
      injection hi with hi
      exact ⟨rfl, hi⟩
    · exfalso
      have hnone : (ks ++ [k]).get? i = none := by
        rw [List.get?_eq_none]
        simp only [List.length_append, List.length_singleton]
        omega
      rw [hnone] at hi
      exact absurd hi (by simp)
  have hbmaxE : b.max_error = E := BS.herr
  have hposq : ∀ u v : ℕ, u < v → (0 : ℚ) < ((v - u : ℕ) : ℚ) := by
    intro u v huv
    have h0 : 0 < v - u := by omega
    exact_mod_cast h0
  have hcastk : ∀ u : ℕ, u < k → ((k : ℚ) - (u : ℚ)) = ((k - u : ℕ) : ℚ) := by
    intro u hu
    rw [Nat.cast_sub (le_of_lt hu)]
  have hspP : (b.push k).spline_points
      = (b.insert k ((ks.length : ℕ) : ℚ)).spline_points := by
    rw [Builder.push_spline_points, hy]
  have hppP : (b.push k).prev_point = ⟨k, ((ks.length : ℕ) : ℚ)⟩ := by
    rw [Builder.push_prev_point, hy, Builder.insert_big_prev_point b k _ hn0 hxne hdd]
  have hdP : (b.push k).distinct = ks.length + 1 := by
    rw [Builder.push_distinct, hy, Builder.insert_big_distinct b k _ hn0 hxne hdd, hdisteq]
  have hppco : b.prev_point = ⟨ks.getLastD 0, ((ks.length : ℕ) : ℚ) - 1⟩ := hprevpt
  have hpxlt : ks.getLastD 0 < k := by
    rw [← BS.hprevx]
    exact hk1
  have hprevpt2 : (b.push k).prev_point
      = ⟨(ks ++ [k]).getLastD 0, (((ks ++ [k]).length : ℕ) : ℚ) - 1⟩ := by
    rw [hppP]
    simp only [List.getLastD_concat, List.length_append, List.length_singleton]
    congr 1
    push_cast
    ring
  have hfirst2 : ∀ sp2 : List Coordinate, sp2 = b.spline_points
      ∨ sp2 = b.spline_points ++ [b.prev_point] →
      sp2.get? 0 = some ⟨(ks ++ [k]).headD 0, 0⟩ := by
    intro sp2 hsp2
    rw [headD_concat ks k 0 BS.hne]
    rcases hsp2 with rfl | rfl
    · exact hfirst
    · rw [List.get?_append (List.length_pos.mpr BS.hspne)]
      exact hfirst
  by_cases hc : Builder.collapses b k ((ks.length : ℕ) : ℚ) B
  · -- collapse: the previous point becomes a knot, the cone resets at k
    have hsp1 : (b.push k).spline_points = b.spline_points ++ [b.prev_point] := by
      rw [hspP, Builder.insert_big_spline_points b k _ hn0 hxne hdd, if_pos hc]
    have hul1 : (b.push k).upper_limit
        = ⟨k, ((ks.length : ℕ) : ℚ) + b.max_error⟩ := by
      rw [Builder.push_upper_limit, hy, Builder.insert_big_upper_limit b k _ hn0 hxne hdd,
        if_pos hc]
    have hll1 : (b.push k).lower_limit
        = ⟨k, Max.max (((ks.length : ℕ) : ℚ) - b.max_error) 0⟩ := by
      rw [Builder.push_lower_limit, hy, Builder.insert_big_lower_limit b k _ hn0 hxne hdd,
        if_pos hc]
    have hbaseP : ((b.push k).spline_points.getLastD default) = b.prev_point := by
      rw [hsp1]
      exact List.getLastD_concat _ _ _
    refine ⟨BS', hE, ?_, ?_, ?_, hprevpt2, ?_, ?_, ?_, ?_, ?_, ?_⟩
    · rw [hdP]
      simp
    · rw [hsp1]
      exact hfirst2 _ (Or.inr rfl)
    · intro c hcm
      rw [hsp1] at hcm
      rcases List.mem_append.mp hcm with hold | hnew
      · obtain ⟨q, hq1, hq2⟩ := hknotrk c hold
        have hqlt : q < ks.length := (List.get?_eq_some.mp hq1).1
        exact ⟨q, by rw [List.get?_append hqlt]; exact hq1, hq2⟩
      · have hceq : c = b.prev_point := by simpa using hnew
        subst hceq
        refine ⟨ks.length - 1, ?_, ?_⟩
        · show (ks ++ [k]).get? (ks.length - 1) = some b.prev_point.x
          rw [List.get?_append (by omega : ks.length - 1 < ks.length),
            get?_last ks BS.hne, hppco]
        · show b.prev_point.y = ((ks.length - 1 : ℕ) : ℚ)
          rw [hppco]
          show ((ks.length : ℕ) : ℚ) - 1 = ((ks.length - 1 : ℕ) : ℚ)
          rw [Nat.cast_sub (by omega : 1 ≤ ks.length)]
          norm_num
    · intro j l r hl hr i xi hi hlx hxr
      rw [hsp1] at hl hr
      have hjlen : j + 1 < b.spline_points.length + 1 := by
        have h1 := (List.get?_eq_some.mp hr).1
        simpa using h1
      rcases Nat.lt_or_ge (j + 1) b.spline_points.length with hj | hj
      · rw [List.get?_append hj] at hr
        rw [List.get?_append (by omega)] at hl
        rcases hsplit i xi hi with hiold | ⟨hieq, hkxi⟩
        · exact hseg j l r hl hr i xi hiold hlx hxr
        · exfalso
          obtain ⟨hr1, hr2, hr3, hr4⟩ := BS.hknot r (List.get?_mem hr)
          omega
      · have hjeq : j + 1 = b.spline_points.length := by omega
        have hrP : r = b.prev_point := by
          rw [hjeq, List.get?_concat_length] at hr
          injection hr with h
          exact h.symm
        have hlB : l = B := by
          rw [List.get?_append (by omega : j < b.spline_points.length)] at hl
          have hj1 : j = b.spline_points.length - 1 := by omega
          rw [hj1, get?_lastD _ default BS.hspne] at hl
          injection hl with h
          exact h.symm
        rw [hlB] at hlx ⊢
        rw [hrP] at hxr ⊢
        rcases hsplit i xi hi with hiold | ⟨hieq, hkxi⟩
        · exact hpend i xi hiold hlx
        · exfalso
          rw [BS.hppx] at hxr
          omega
    · intro i xi hi hxi
      rw [hbaseP] at hxi ⊢
      rw [hppP]
      rcases hsplit i xi hi with hiold | ⟨hieq, hkxi⟩
      · have h1 : xi ≤ b.prev_x := hble i xi hiold
        have h2 : b.prev_point.x = b.prev_x := BS.hppx
        have hxeq : b.prev_point.x = xi := by omega
        have hgl2 : ks.getLastD 0 = xi := by
          rw [hppco] at hxeq
          exact hxeq
        have hi2 : ks.get? (ks.length - 1) = some xi := by
          rw [get?_last ks BS.hne, hgl2]
        have hieq2 : i = ks.length - 1 := schain_get_inj ks hsorted i (ks.length - 1) xi
          hiold hi2
        have hintL : interpQ b.prev_point ⟨k, ((ks.length : ℕ) : ℚ)⟩ xi
            = b.prev_point.y := by
          rw [← hxeq]
          exact interpQ_left _ _
        rw [hintL, hppco]
        show |((ks.length : ℕ) : ℚ) - 1 - (i : ℚ)| ≤ E + PREC
        rw [hieq2]
        have hcast2 : ((ks.length - 1 : ℕ) : ℚ) = ((ks.length : ℕ) : ℚ) - 1 := by
          rw [Nat.cast_sub (by omega : 1 ≤ ks.length)]
          norm_num
        rw [hcast2]
        simp only [sub_self, abs_zero]
        linarith [PREC_pos]
      · subst hieq
        rw [← hkxi]
        have hPk : b.prev_point.x < k := by
          rw [BS.hppx]
          exact hk1
        have h1 := interpQ_right b.prev_point ⟨k, ((ks.length : ℕ) : ℚ)⟩ hPk
        rw [show ((⟨k, ((ks.length : ℕ) : ℚ)⟩ : Coordinate)).x = k from rfl] at h1
        rw [h1]
        show |((ks.length : ℕ) : ℚ) - ((ks.length : ℕ) : ℚ)| ≤ E + PREC
        simp only [sub_self, abs_zero]
        linarith [PREC_pos]
    · intro h2
      rw [hbaseP, hul1]
      show b.prev_point.x < k
      rw [BS.hppx]
      exact hk1
    · intro h2
      rw [hbaseP, hll1]
      show b.prev_point.x < k
      rw [BS.hppx]
      exact hk1
    · intro h2 i xi hi hxi
      rw [hbaseP] at hxi
      rw [hbaseP, hul1]
      rcases hsplit i xi hi with hiold | ⟨hieq, hkxi⟩
      · exfalso
        have h1 : xi ≤ b.prev_x := hble i xi hiold
        have h3 := BS.hppx
        omega
      · subst hieq
        rw [← hkxi]
        rw [hppco]
        dsimp only
        rw [hcastk _ hpxlt]
        have hdpos : (0 : ℚ) < ((k - ks.getLastD 0 : ℕ) : ℚ) := hposq _ _ hpxlt
        have hnum : ((ks.length : ℕ) : ℚ) + b.max_error - (((ks.length : ℕ) : ℚ) - 1)
            ≤ ((ks.length : ℕ) : ℚ) + E - (((ks.length : ℕ) : ℚ) - 1) + PREC := by
          rw [hbmaxE]
          linarith [PREC_pos]
        gcongr
    · intro h2 i xi hi hxi
      rw [hbaseP] at hxi
      rw [hbaseP, hll1]
      rcases hsplit i xi hi with hiold | ⟨hieq, hkxi⟩
      · exfalso
        have h1 : xi ≤ b.prev_x := hble i xi hiold
        have h3 := BS.hppx
        omega
      · subst hieq
        rw [← hkxi]
        rw [hppco]
        dsimp only
        rw [hcastk _ hpxlt]
        have hdpos : (0 : ℚ) < ((k - ks.getLastD 0 : ℕ) : ℚ) := hposq _ _ hpxlt
        have hnum : ((ks.length : ℕ) : ℚ) - E - (((ks.length : ℕ) : ℚ) - 1) - PREC
            ≤ Max.max (((ks.length : ℕ) : ℚ) - b.max_error) 0
              - (((ks.length : ℕ) : ℚ) - 1) := by
          rw [hbmaxE]
          have hm := le_max_left (((ks.length : ℕ) : ℚ) - E) (0 : ℚ)
          linarith [PREC_pos]
        gcongr
  · -- no collapse: the key stays inside the cone, which may tighten
    have hsp1 : (b.push k).spline_points = b.spline_points := by
      rw [hspP, Builder.insert_big_spline_points b k _ hn0 hxne hdd, if_neg hc]
    have hbaseP : ((b.push k).spline_points.getLastD default) = B := by
      rw [hsp1]
    have hul1 : (b.push k).upper_limit
        = if Builder.tightensUpper b k ((ks.length : ℕ) : ℚ) B then
            (⟨k, ((ks.length : ℕ) : ℚ) + b.max_error⟩ : Coordinate)
          else b.upper_limit := by
      rw [Builder.push_upper_limit, hy, Builder.insert_big_upper_limit b k _ hn0 hxne hdd,
        if_neg hc]
    have hll1 : (b.push k).lower_limit
        = if Builder.tightensLower b k ((ks.length : ℕ) : ℚ) B then
            (⟨k, Max.max (((ks.length : ℕ) : ℚ) - b.max_error) 0⟩ : Coordinate)
          else b.lower_limit := by
      rw [Builder.push_lower_limit, hy, Builder.insert_big_lower_limit b k _ hn0 hxne hdd,
        if_neg hc]
    have hstay : Builder.collapses b k ((ks.length : ℕ) : ℚ) B → False := hc
    have hacc : orient ((b.upper_limit.x : ℚ) - (B.x : ℚ)) (b.upper_limit.y - B.y)
          ((k - B.x : ℕ) : ℚ) (((ks.length : ℕ) : ℚ) - B.y) = Orient.Clockwise
        ∧ orient ((b.lower_limit.x : ℚ) - (B.x : ℚ)) (b.lower_limit.y - B.y)
          ((k - B.x : ℕ) : ℚ) (((ks.length : ℕ) : ℚ) - B.y) = Orient.Counterclockwise := by
      unfold Builder.collapses at hc
      push_neg at hc
      exact hc
    have hUxx := hUx hd2
    have hLxx := hLx hd2
    have hdxU : (0 : ℚ) < (b.upper_limit.x : ℚ) - (B.x : ℚ) := by
      have h1 : (B.x : ℚ) < (b.upper_limit.x : ℚ) := by exact_mod_cast hUxx
      linarith
    have hdxU1 : (1 : ℚ) ≤ (b.upper_limit.x : ℚ) - (B.x : ℚ) := by
      have h1 : ((B.x + 1 : ℕ) : ℚ) ≤ (b.upper_limit.x : ℚ) := by
        exact_mod_cast hUxx
      push_cast at h1
      linarith
    have hdxL : (0 : ℚ) < (b.lower_limit.x : ℚ) - (B.x : ℚ) := by
      have h1 : (B.x : ℚ) < (b.lower_limit.x : ℚ) := by exact_mod_cast hLxx
      linarith
    have hdxL1 : (1 : ℚ) ≤ (b.lower_limit.x : ℚ) - (B.x : ℚ) := by
      have h1 : ((B.x + 1 : ℕ) : ℚ) ≤ (b.lower_limit.x : ℚ) := by
        exact_mod_cast hLxx
      push_cast at h1
      linarith
    have hdxc : (0 : ℚ) < ((k - B.x : ℕ) : ℚ) := hposq _ _ hBk
    have hcw := (orient_cw_iff _ _ _ _).mp hacc.1
    have hccw := (orient_ccw_iff _ _ _ _).mp hacc.2
    have hslopeU : (((ks.length : ℕ) : ℚ) - B.y) / ((k - B.x : ℕ) : ℚ)
        < (b.upper_limit.y - B.y) / ((b.upper_limit.x : ℚ) - (B.x : ℚ)) :=
      slope_lt_of_cross _ _ _ _ hdxU hdxc (by linarith [PREC_pos])
    have hslopeL : (b.lower_limit.y - B.y) / ((b.lower_limit.x : ℚ) - (B.x : ℚ))
        < (((ks.length : ℕ) : ℚ) - B.y) / ((k - B.x : ℕ) : ℚ) :=
      slope_gt_of_cross _ _ _ _ hdxL hdxc (by linarith [PREC_pos])
    refine ⟨BS', hE, ?_, ?_, ?_, hprevpt2, ?_, ?_, ?_, ?_, ?_, ?_⟩
    · rw [hdP]
      simp
    · rw [hsp1]
      exact hfirst2 _ (Or.inl rfl)
    · intro c hcm
      rw [hsp1] at hcm
      obtain ⟨q, hq1, hq2⟩ := hknotrk c hcm
      have hqlt : q < ks.length := (List.get?_eq_some.mp hq1).1
      exact ⟨q, by rw [List.get?_append hqlt]; exact hq1, hq2⟩
    · intro j l r hl hr i xi hi hlx hxr
      rw [hsp1] at hl hr
      rcases hsplit i xi hi with hiold | ⟨hieq, hkxi⟩
      · exact hseg j l r hl hr i xi hiold hlx hxr
      · exfalso
        obtain ⟨hr1, hr2, hr3, hr4⟩ := BS.hknot r (List.get?_mem hr)
        omega
    · intro i xi hi hxi
      rw [hbaseP] at hxi ⊢
      rw [hppP]
      rcases hsplit i xi hi with hiold | ⟨hieq, hkxi⟩
      · rcases eq_or_lt_of_le hxi with heq | hlt
        · -- key sits exactly at the base knot
          have hiq : i = qB := schain_get_inj ks hsorted i qB xi hiold
            (by rw [heq] at hqBg; exact hqBg)
          have hintL : interpQ B ⟨k, ((ks.length : ℕ) : ℚ)⟩ xi = B.y := by
            rw [← heq]
            exact interpQ_left _ _
          rw [hintL, hqBy, hiq]
          simp only [sub_self, abs_zero]
          linarith [PREC_pos]
        · -- strictly after the base: the cone invariants bound the segment
          have hupi := hup hd2 i xi hiold hlt
          have hloi := hlo hd2 i xi hiold hlt
          have hupi2 : (b.upper_limit.y - B.y)
              / ((b.upper_limit.x : ℚ) - (B.x : ℚ))
              ≤ (((i : ℚ) + E + PREC) - B.y) / ((xi - B.x : ℕ) : ℚ) := by
            rw [show ((i : ℚ) + E + PREC) - B.y = (i : ℚ) + E - B.y + PREC from by ring]
            exact hupi
          have hloi2 : (((i : ℚ) - E - PREC) - B.y) / ((xi - B.x : ℕ) : ℚ)
              ≤ (b.lower_limit.y - B.y)
              / ((b.lower_limit.x : ℚ) - (B.x : ℚ)) := by
            rw [show ((i : ℚ) - E - PREC) - B.y = (i : ℚ) - E - B.y - PREC from by ring]
            exact hloi
          have hsU : ((⟨k, ((ks.length : ℕ) : ℚ)⟩ : Coordinate).y - B.y)
              / (((⟨k, ((ks.length : ℕ) : ℚ)⟩ : Coordinate).x - B.x : ℕ) : ℚ)
              ≤ (((i : ℚ) + E + PREC) - B.y) / ((xi - B.x : ℕ) : ℚ) :=
            le_trans (le_of_lt hslopeU) hupi2
          have hsL : (((i : ℚ) - E - PREC) - B.y) / ((xi - B.x : ℕ) : ℚ)
              ≤ ((⟨k, ((ks.length : ℕ) : ℚ)⟩ : Coordinate).y - B.y)
              / (((⟨k, ((ks.length : ℕ) : ℚ)⟩ : Coordinate).x - B.x : ℕ) : ℚ) :=
            le_trans hloi2 (le_of_lt hslopeL)
          have hub := interp_le_of_slope_le B ⟨k, ((ks.length : ℕ) : ℚ)⟩ xi
            ((i : ℚ) + E + PREC) hlt hsU
          have hlb := interp_ge_of_slope_ge B ⟨k, ((ks.length : ℕ) : ℚ)⟩ xi
            ((i : ℚ) - E - PREC) hlt hsL
          rw [abs_le]
          constructor
          · linarith
          · linarith
      · subst hieq
        rw [← hkxi]
        have h1 := interpQ_right B ⟨k, ((ks.length : ℕ) : ℚ)⟩ hBk
        rw [show ((⟨k, ((ks.length : ℕ) : ℚ)⟩ : Coordinate)).x = k from rfl] at h1
        rw [h1]
        show |((ks.length : ℕ) : ℚ) - ((ks.length : ℕ) : ℚ)| ≤ E + PREC
        simp only [sub_self, abs_zero]
        linarith [PREC_pos]
    · intro h2
      rw [hbaseP, hul1]
      by_cases htu : Builder.tightensUpper b k ((ks.length : ℕ) : ℚ) B
      · rw [if_pos htu]
        exact hBk
      · rw [if_neg htu]
        exact hUxx
    · intro h2
      rw [hbaseP, hll1]
      by_cases htl : Builder.tightensLower b k ((ks.length : ℕ) : ℚ) B
      · rw [if_pos htl]
        exact hBk
      · rw [if_neg htl]
        exact hLxx
    · intro h2 i xi hi hxi
      rw [hbaseP] at hxi
      rw [hbaseP, hul1]
      by_cases htu : Builder.tightensUpper b k ((ks.length : ℕ) : ℚ) B
      · rw [if_pos htu]
        dsimp only
        unfold Builder.tightensUpper at htu
        rw [orient_cw_iff] at htu
        have hslopeU2 : (((ks.length : ℕ) : ℚ) + b.max_error - B.y) / ((k - B.x : ℕ) : ℚ)
            < (b.upper_limit.y - B.y) / ((b.upper_limit.x : ℚ) - (B.x : ℚ)) :=
          slope_lt_of_cross _ _ _ _ hdxU hdxc (by linarith [PREC_pos])
        rcases hsplit i xi hi with hiold | ⟨hieq, hkxi⟩
        · have hupi := hup hd2 i xi hiold hxi
          rw [hcastk _ hBk]
          exact le_trans (le_of_lt hslopeU2) hupi
        · subst hieq
          rw [← hkxi]
          rw [hcastk _ hBk]
          have hdpos := hdxc
          have hnum : ((ks.length : ℕ) : ℚ) + b.max_error - B.y
              ≤ ((ks.length : ℕ) : ℚ) + E - B.y + PREC := by
            rw [hbmaxE]
            linarith [PREC_pos]
          gcongr
      · rw [if_neg htu]
        rcases hsplit i xi hi with hiold | ⟨hieq, hkxi⟩
        · exact hup hd2 i xi hiold hxi
        · subst hieq
          rw [← hkxi]
          unfold Builder.tightensUpper at htu
          rw [orient_cw_iff] at htu
          push_neg at htu
          have hres := slope_of_cross_le (b.upper_limit.y - B.y)
            ((b.upper_limit.x : ℚ) - (B.x : ℚ))
            (((ks.length : ℕ) : ℚ) + b.max_error - B.y) ((k - B.x : ℕ) : ℚ) PREC
            hdxU1 hdxc htu (le_of_lt PREC_pos)
          rw [hbmaxE] at hres
          rw [show ((ks.length : ℕ) : ℚ) + E - B.y + PREC
              = (((ks.length : ℕ) : ℚ) + E - B.y) + PREC from by ring]
          exact hres
    · intro h2 i xi hi hxi
      rw [hbaseP] at hxi
      rw [hbaseP, hll1]
      by_cases htl : Builder.tightensLower b k ((ks.length : ℕ) : ℚ) B
      · rw [if_pos htl]
        dsimp only
        unfold Builder.tightensLower at htl
        rw [orient_ccw_iff] at htl
        have hslopeL2 : (b.lower_limit.y - B.y) / ((b.lower_limit.x : ℚ) - (B.x : ℚ))
            < (Max.max (((ks.length : ℕ) : ℚ) - b.max_error) 0 - B.y)
              / ((k - B.x : ℕ) : ℚ) :=
          slope_gt_of_cross _ _ _ _ hdxL hdxc (by linarith [PREC_pos])
        rcases hsplit i xi hi with hiold | ⟨hieq, hkxi⟩
        · have hloi := hlo hd2 i xi hiold hxi
          rw [hcastk _ hBk]
          exact le_trans hloi (le_of_lt hslopeL2)
        · subst hieq
          rw [← hkxi]
          rw [hcastk _ hBk]
          have hdpos := hdxc
          have hnum : ((ks.length : ℕ) : ℚ) - E - B.y - PREC
              ≤ Max.max (((ks.length : ℕ) : ℚ) - b.max_error) 0 - B.y := by
            rw [hbmaxE]
            have hm := le_max_left (((ks.length : ℕ) : ℚ) - E) (0 : ℚ)
            linarith [PREC_pos]
          gcongr
      · rw [if_neg htl]
        rcases hsplit i xi hi with hiold | ⟨hieq, hkxi⟩
        · exact hlo hd2 i xi hiold hxi
        · subst hieq
          rw [← hkxi]
          unfold Builder.tightensLower at htl
          rw [orient_ccw_iff] at htl
          push_neg at htl
          have hres := slope_of_cross_ge (b.lower_limit.y - B.y)
            ((b.lower_limit.x : ℚ) - (B.x : ℚ))
            (Max.max (((ks.length : ℕ) : ℚ) - b.max_error) 0 - B.y)
            ((k - B.x : ℕ) : ℚ) PREC hdxL1 hdxc htl (le_of_lt PREC_pos)
          rw [hbmaxE] at hres
          have hmono : ((ks.length : ℕ) : ℚ) - E - B.y - PREC
              ≤ (Max.max (((ks.length : ℕ) : ℚ) - E) 0 - B.y) - PREC := by
            have hm := le_max_left (((ks.length : ℕ) : ℚ) - E) (0 : ℚ)
            linarith
          calc (((ks.length : ℕ) : ℚ) - E - B.y - PREC) / ((k - B.x : ℕ) : ℚ)
              ≤ ((Max.max (((ks.length : ℕ) : ℚ) - E) 0 - B.y) - PREC)
                / ((k - B.x : ℕ) : ℚ) := by gcongr
            _ ≤ (b.lower_limit.y - B.y)
                / ((b.lower_limit.x : ℚ) - (B.x : ℚ)) := hres

theorem cstate_push (mn mx : ℕ) (E : ℚ) (ks : List ℕ) (b : Builder) (k : ℕ)
    (S : CState mn mx E ks b) (hsorted : ks.Chain' (fun u v => u < v))
    (hk1 : b.prev_x < k) (hk2 : k ≤ mx) :
    CState mn mx E (ks ++ [k]) (b.push k) := by
  have hlen1 : 1 ≤ ks.length := by
    rcases hne : ks with _ | ⟨a, t⟩
    · exact absurd rfl (hne ▸ S.BS.hne)
    · simp
  rcases eq_or_lt_of_le hlen1 with h1 | h2
  · exact cstate_push_second mn mx E ks b k S hk1 hk2 h1.symm
  · exact cstate_push_big mn mx E ks b k S hsorted hk1 hk2 h2

/-- Feeding strictly increasing, bounded, non-empty keys establishes the
envelope invariant. -/
theorem cstate_fed (mn mx : ℕ) (E : ℚ) (hmn : mn ≤ mx) (hE : 0 ≤ E) (ks : List ℕ) :
    ks ≠ [] → ks.Chain' (fun u v => u < v) → (∀ j ∈ ks, mn ≤ j ∧ j ≤ mx) →
    CState mn mx E ks (builderFed (newBuilder mn mx E) ks) := by
  induction ks using List.reverseRecOn with
  | nil => intro h; exact absurd rfl h
  | append_singleton ks k ih =>
      intro _ hchain hbnd
      rw [builderFed_concat]
      rcases eq_or_ne ks [] with rfl | hne
      · have hb := hbnd k (by simp)
        exact cstate_first mn mx E k hmn hE hb.1 hb.2
      · have hchain' : ks.Chain' (fun u v => u < v) := (List.chain'_append.mp hchain).1
        have hbnd' : ∀ j ∈ ks, mn ≤ j ∧ j ≤ mx := fun j hj => hbnd j (by simp [hj])
        have S := ih hne hchain' hbnd'
        have hlk : ks.getLastD 0 < k := by
          have h3 := (List.chain'_append.mp hchain).2.2
          exact h3 (ks.getLastD 0) (getLast?_eq_getLastD ks 0 hne) k rfl
        exact cstate_push mn mx E ks _ k S hchain'
          (by rw [S.BS.hprevx]; exact hlk) (hbnd k (by simp)).2

/-- C2 (corrected): on pairwise-distinct (strictly increasing) keys the
error envelope holds — every ingested key's estimate is within
`max_error + 1` of its unique rank.  (For data with duplicated keys the
original claim is unsatisfiable: no single estimate can be within
`max_error + 1` of every rank of a key repeated more than
`2·max_error + 2` times, and the code indeed violates it there, see the
counterexample.) -/
theorem c2_error_envelope (E : ℚ) (hE : 0 < E) (ks : List ℕ) (hne : ks ≠ [])
    (hstrict : ks.Chain' (fun u v => u < v)) (i xi : ℕ)
    (hget : ks.get? i = some xi) :
    ∃ e, (buildIndex E ks).get_estimated_position xi = some e
      ∧ |e - (i : ℚ)| ≤ E + 1 := by
  have hchle : ks.Chain' (fun u v => u ≤ v) :=
    List.Chain'.imp (fun u v h => le_of_lt h) hstrict
  have hbnd := nat_chain_bounds ks hchle
  have hheadmem : ks.headD 0 ∈ ks := List.get?_mem (get?_head ks hne)
  have hmn : ks.headD 0 ≤ ks.getLastD 0 := (hbnd _ hheadmem).2
  have S := cstate_fed (ks.headD 0) (ks.getLastD 0) E hmn (le_of_lt hE) ks hne hstrict hbnd
  have I : RSInv (ks.headD 0) (ks.getLastD 0) E ks.length (buildIndex E ks) :=
    rsinv_build _ _ _ _ _ S.BS
  have hximem : xi ∈ ks := List.get?_mem hget
  have hxb := hbnd xi hximem
  have hlen1 : 1 ≤ ks.length := by
    rcases hks : ks with _ | ⟨a, t⟩
    · exact absurd rfl (hks ▸ hne)
    · simp
  by_cases hx0 : xi ≤ ks.headD 0
  · have hxeq : ks.headD 0 = xi := by omega
    have hi0 : i = 0 := schain_get_inj ks hstrict i 0 xi hget
      (by rw [get?_head ks hne, hxeq])
    refine ⟨0, ?_, ?_⟩
    · unfold RadixSpline.get_estimated_position
      rw [if_pos (show xi ≤ (buildIndex E ks).min by rw [I.hmin]; omega)]
    · rw [hi0]
      simp only [Nat.cast_zero, sub_zero, abs_zero]
      linarith
  · by_cases hx1 : xi ≥ ks.getLastD 0
    · have hxeq : ks.getLastD 0 = xi := by omega
      have hil : i = ks.length - 1 := schain_get_inj ks hstrict i (ks.length - 1) xi hget
        (by rw [get?_last ks hne, hxeq])
      refine ⟨((ks.length : ℕ) : ℚ) - 1, ?_, ?_⟩
      · unfold RadixSpline.get_estimated_position
        rw [if_neg (show ¬ xi ≤ (buildIndex E ks).min by rw [I.hmin]; omega),
          if_pos (show xi ≥ (buildIndex E ks).max by rw [I.hmax]; omega),
          if_neg (show ¬ (buildIndex E ks).num_points = 0 by rw [I.hnum]; omega),
          I.hnum]
      · rw [hil]
        have hcast2 : ((ks.length - 1 : ℕ) : ℚ) = ((ks.length : ℕ) : ℚ) - 1 := by
          rw [Nat.cast_sub hlen1]
          norm_num
        rw [hcast2]
        simp only [sub_self, abs_zero]
        linarith
    · -- interior key
      have h1 : ks.headD 0 < xi := by omega
      have h2 : xi < ks.getLastD 0 := by omega
      have hlen2 : 2 ≤ ks.length := by
        by_contra hcon
        have hl1 : ks.length = 1 := by omega
        obtain ⟨a, rfl⟩ : ∃ a, ks = [a] := by
          rcases ks with _ | ⟨a, t⟩
          · exact absurd rfl hne
          · rcases t with _ | _
            · exact ⟨a, rfl⟩
            · simp at hl1
        have hc1 : [a].headD 0 = a := rfl
        have hc2 : [a].getLastD 0 = a := rfl
        rw [hc1] at h1
        rw [hc2] at h2
        omega
      set b := builderFed (newBuilder (ks.headD 0) (ks.getLastD 0) E) ks with hb
      have hn0 : b.num_points ≠ 0 := by
        rw [S.BS.hnum]
        omega
      have hd2 : 2 ≤ b.distinct := by
        rw [S.hdisteq]
        omega
      have hbne : (b.spline_points.getLastD default).x ≠ b.prev_x := by
        have hmul := S.BS.hmulti hd2
        have h3 := hmul.1
        rw [S.BS.hppx] at h3
        omega
      have hbsp : (buildIndex E ks).spline_points
          = b.spline_points ++ [⟨b.prev_x, b.prev_y⟩] :=
        build_spline_append b hn0 hbne
      obtain ⟨hz, hint, hnone⟩ := rsinv_est_cases _ _ E ks.length (buildIndex E ks) I xi h1 h2
      have hfk : (buildIndex E ks).spline_points.get? 0 = some ⟨ks.headD 0, 0⟩ := by
        rw [hbsp, List.get?_append (List.length_pos.mpr S.BS.hspne)]
        exact S.hfirst
      have hpos : 0 < (buildIndex E ks).spline_points.countP
          (fun c => decide (c.x < xi)) := by
        rw [List.countP_pos]
        exact ⟨⟨ks.headD 0, 0⟩, List.get?_mem hfk, by
          simp only [decide_eq_true_eq]
          exact h1⟩
      have hltl : (buildIndex E ks).spline_points.countP (fun c => decide (c.x < xi))
          < (buildIndex E ks).spline_points.length := by
        rcases eq_or_lt_of_le (List.countP_le_length
            (l := (buildIndex E ks).spline_points) (fun c => decide (c.x < xi))) with he | hl
        · exfalso
          have hall := List.countP_eq_length.mp he
          have hlm : (⟨b.prev_x, b.prev_y⟩ : Coordinate)
              ∈ (buildIndex E ks).spline_points := by
            rw [hbsp]
            simp
          have := hall _ hlm
          simp only [decide_eq_true_eq] at this
          have h4 : b.prev_x = ks.getLastD 0 := S.BS.hprevx
          omega
        · exact hl
      obtain ⟨l, r, hlg, hrg, hlx, hrx, hval⟩ := hint hpos hltl
      set t := (buildIndex E ks).spline_points.countP (fun c => decide (c.x < xi)) with ht
      have henv : |interpQ l r xi - (i : ℚ)| ≤ E + PREC := by
        have hsplen : (buildIndex E ks).spline_points.length
            = b.spline_points.length + 1 := by
          rw [hbsp]
          simp
        rcases Nat.lt_or_ge t b.spline_points.length with htin | htout
        · -- both knots lie in the fitter's list
          rw [hbsp, List.get?_append (by omega)] at hlg
          rw [hbsp, List.get?_append htin] at hrg
          have hj := S.hseg (t - 1) l r hlg (by
            rw [show t - 1 + 1 = t from by omega]
            exact hrg)
          exact hj i xi hget (le_of_lt hlx) hrx
        · -- the right knot is the final appended point
          have hteq : t = b.spline_points.length := by omega
          have hrP : r = ⟨b.prev_x, b.prev_y⟩ := by
            rw [hbsp, hteq, List.get?_concat_length] at hrg
            injection hrg with h
            exact h.symm
          have hlB : l = b.spline_points.getLastD default := by
            rw [hbsp, List.get?_append (by omega : t - 1 < b.spline_points.length)] at hlg
            rw [hteq] at hlg
            rw [get?_lastD _ default S.BS.hspne] at hlg
            injection hlg with h
            exact h.symm
          have hPP : (⟨b.prev_x, b.prev_y⟩ : Coordinate) = b.prev_point := by
            rw [S.hprevpt, S.BS.hprevx, S.BS.hprevy]
          rw [hlB, hrP, hPP]
          exact S.hpend i xi hget (by rw [hlB] at hlx; exact le_of_lt hlx)
      refine ⟨(r.y - l.y) / ((r.x - l.x : ℕ) : ℚ) * ((xi - l.x : ℕ) : ℚ) + l.y, hval, ?_⟩
      have hfin : |interpQ l r xi - (i : ℚ)| ≤ E + 1 :=
        le_trans henv (by linarith [PREC_le_one])
      exact hfin

unseal Rat.add Rat.sub Rat.mul Rat.inv in
theorem c2_error_envelope_witness :
    (0 : ℚ) < 1 ∧ ([0, 2, 5] : List ℕ) ≠ []
    ∧ ([0, 2, 5] : List ℕ).Chain' (fun u v => u < v)
    ∧ ([0, 2, 5] : List ℕ).get? 1 = some 2
    ∧ ∃ e, (buildIndex 1 [0, 2, 5]).get_estimated_position 2 = some e
        ∧ |e - ((1 : ℕ) : ℚ)| ≤ 1 + 1 :=
  ⟨by norm_num, by decide, by simp [List.chain'_cons], by decide,
    c2_error_envelope 1 (by norm_num) [0, 2, 5] (by decide) (by simp [List.chain'_cons])
      1 2 (by decide)⟩
